import Mathlib

/-!
Shallow embedding of the Template AST Rendering & Data-Binding Engine of the
AIResume repository, together with theorems checking the natural-language
specification against it.

Sources embedded:
* `src/front/src/components/ASTRenderer.tsx` (the version with repeat-context
  support: `getValueByPath`, `resolveContent`, `normalizeType`,
  `updateNodePaths`, `ASTNodeRenderer`): namespace `ASTR`.
* `src/front/src/pages/Editor.tsx` (the version with the HTML export:
  `getValueByPath`, `resolveContent`, `normalizeType`, `convertStylesToCSS`,
  `astToHtml`): namespace `Editor`.

Data values are modelled by a JSON-like inductive `Json`; the JavaScript
`undefined` value is modelled by `Option Json` with `none` for `undefined`.
JavaScript primitives used by the source (`String(...)`, truthiness,
`parseInt`, `Array.prototype.join`, and `String.prototype.replace` with the
concrete regular expressions appearing in the source) are modelled
explicitly.  Prototype-chain properties of arrays and strings (such as
`length`) are not part of the JSON data model and are not modelled; none of
the code paths under study reads them.  Renderer recursion is modelled with
a fuel parameter; any fuel at least the tree height makes the fuel branch
unreachable, and every theorem below quantifies over the fuel or uses a
concrete sufficient value.
-/

set_option maxRecDepth 40000

/-- JSON-like runtime values (JavaScript `null` is `Json.null`;
JavaScript `undefined` is represented by `none : Option Json` wherever the
source can produce it).  Numbers are modelled by integers, which covers all
data appearing in the specification and its examples. -/
inductive Json where
  | null
  | bool (b : Bool)
  | num (n : Int)
  | str (s : String)
  | arr (xs : List Json)
  | obj (fields : List (String × Json))
deriving Repr, Inhabited

/-- JavaScript truthiness on modelled values: `null`, `false`, `0` and `""`
are falsy; every array and object (even empty) is truthy. -/
def jsFalsy : Json → Bool
  | .null => true
  | .bool b => !b
  | .num n => n == 0
  | .str s => s == ""
  | .arr _ => false
  | .obj _ => false

/-- Property lookup `o[k]` on a modelled value: defined (first matching key)
on objects, `undefined` (`none`) on every other value. -/
def jsGetProp (j : Json) (k : String) : Option Json :=
  match j with
  | .obj fields => (fields.find? (fun p => p.1 == k)).map (·.2)
  | _ => none

mutual
/-- JavaScript `String(v)` on modelled values (`Array.prototype.toString`
joins elements with `","`, turning `null` elements into the empty string;
objects print as `"[object Object]"`). -/
def jsToString : Json → String
  | .null => "null"
  | .bool b => if b then "true" else "false"
  | .num n => toString n
  | .str s => s
  | .arr xs => jsJoinComma xs
  | .obj _ => "[object Object]"

/-- `Array.prototype.toString` body: elements joined with `","`
(`null` elements print as `""`). -/
def jsJoinComma : List Json → String
  | [] => ""
  | [.null] => ""
  | [x] => jsToString x
  | .null :: xs => "," ++ jsJoinComma xs
  | x :: xs => jsToString x ++ "," ++ jsJoinComma xs
end

/-- One element under `Array.prototype.join`: `null` prints as `""`. -/
def jsJoinElem : Json → String
  | .null => ""
  | j => jsToString j

/-- `Array.prototype.join(sep)` on modelled JSON elements (`null` elements
become the empty string). -/
def jsJoin (sep : String) : List Json → String
  | [] => ""
  | [x] => jsJoinElem x
  | x :: xs => jsJoinElem x ++ sep ++ jsJoin sep xs

/-- Leading decimal-digit run of a character list. -/
def takeDigits (cs : List Char) : List Char := cs.takeWhile (·.isDigit)

/-- Decimal value of a digit run, most significant first. -/
def digitsVal (cs : List Char) : Nat :=
  cs.foldl (fun acc c => acc * 10 + (c.toNat - '0'.toNat)) 0

/-- JavaScript `parseInt(s, 10)`: skip leading whitespace, optional sign,
then a leading run of decimal digits (trailing garbage ignored); `NaN`
(modelled as `none`) when no digit is found. -/
def jsParseInt (s : String) : Option Int :=
  let cs := s.data.dropWhile (·.isWhitespace)
  let signAndRest : Int × List Char :=
    match cs with
    | '-' :: rest => (-1, rest)
    | '+' :: rest => (1, rest)
    | _ => (1, cs)
  let ds := takeDigits signAndRest.2
  if ds.isEmpty then none else some (signAndRest.1 * (digitsVal ds : Int))

/-- Truthiness of an optional string as the source tests it
(`if (node.repeat)`, `if (node.class_name)` …): present and non-empty. -/
def strTruthy : Option String → Bool
  | some s => s ≠ ""
  | none => false

/-- `s.toLowerCase()`; ASCII-accurate, which covers every tag name and
every type synonym the source compares case-insensitively. -/
def jsToLower (s : String) : String := String.mk (s.data.map Char.toLower)

/-- `s.startsWith(pre)`. -/
def jsStartsWith (s pre : String) : Bool := pre.data.isPrefixOf s.data

/-- `s.slice(n)` for a non-negative character index. -/
def strDrop (s : String) (n : Nat) : String := String.mk (s.data.drop n)

/-- `s.trim()`: strip leading and trailing whitespace. -/
def jsTrim (s : String) : String :=
  String.mk (((s.data.dropWhile (·.isWhitespace)).reverse.dropWhile (·.isWhitespace)).reverse)

/-- `s.split('.')` (single-character separator, JavaScript semantics:
`"a..b" ↦ ["a","","b"]`, `"" ↦ [""]`). -/
def splitDotGo : List Char → List Char → List String
  | [], acc => [String.mk acc.reverse]
  | c :: rest, acc =>
    if c = '.' then String.mk acc.reverse :: splitDotGo rest []
    else splitDotGo rest (c :: acc)

/-- `path.split('.')`. -/
def splitDot (s : String) : List String := splitDotGo s.data []

/-!  A generic model of `String.prototype.replace(regexp-with-g-flag, …)`:
a matcher inspects the current suffix and either yields the replacement
text together with the remainder after the match, or `none`; the scan then
advances one character.  The fuel argument (one unit per scan step) makes
the function structurally recursive; fuel at least the string length is
always sufficient because every step consumes at least one character. -/
def scanRF (m : List Char → Option (List Char × List Char)) : Nat → List Char → List Char
  | 0, s => s
  | _ + 1, [] => []
  | fuel + 1, c :: rest =>
    match m (c :: rest) with
    | some (out, rem) => out ++ scanRF m fuel rem
    | none => c :: scanRF m fuel rest

/-- A matcher is well formed when every match consumes at least one
character. -/
def MatcherOK (m : List Char → Option (List Char × List Char)) : Prop :=
  ∀ s out rem, m s = some (out, rem) → rem.length < s.length

/-- `String.prototype.replace` with a global regexp, given its matcher. -/
def jsReplaceG (m : List Char → Option (List Char × List Char)) (s : String) : String :=
  String.mk (scanRF m s.data.length s.data)

/-- Matcher of `/\[(\d+)\]/g` with replacement `'.$1'` (used by
`getValueByPath` to turn `x[N]` into `x.N`). -/
def mBracketDigits : List Char → Option (List Char × List Char)
  | c :: rest =>
    if c = '[' then
      let ds := takeDigits rest
      if ds ≠ [] ∧ (rest.drop ds.length).take 1 = [']'] then
        some ('.' :: ds, (rest.drop ds.length).drop 1)
      else none
    else none
  | [] => none

/-- Matcher of `/\{\{([^}]+)\}\}/g` whose replacement is computed by `f`
from the captured group (used by both `resolveContent` implementations). -/
def mMustache (f : String → String) : List Char → Option (List Char × List Char)
  | c1 :: c2 :: rest =>
    if c1 = '{' ∧ c2 = '{' then
      let inner := rest.takeWhile (· ≠ '}')
      if inner ≠ [] ∧ (rest.drop inner.length).take 2 = ['}', '}'] then
        some ((f (String.mk inner)).data, (rest.drop inner.length).drop 2)
      else none
    else none
  | _ => none

/-- One token of the regular expression obtained by interpolating a path
string into a pattern (as `updateNodePaths` does with `` `${repeatPath}` ``):
a character of the path is a literal, `'.'` is the metacharacter `.` (any
character except a line terminator), and a `'['...']'` run of the path
becomes a character class matching one character from the listed set. -/
inductive RTok where
  | lit (c : Char)
  | wild
  | cls (cs : List Char)
deriving Repr, DecidableEq

/-- Tokenizer for a path string interpolated into a `RegExp`, following the
JavaScript reading of the resulting pattern on the path grammar of the app
(dotted identifier segments and `[digits]` indices): `'.'` becomes the
any-character wildcard, `'['` opens a character class collected up to the
next `']'` (so the `[0]` of a path like `sections[0].items` matches the
single character `'0'`, not the bracketed text), and every other character
is a literal.  The accumulator holds the members of an open class in
reverse.  A path whose `'['` is never closed would make `new RegExp` throw
a SyntaxError in the source; the model keeps such a trailing fragment as
literals, outside the faithful domain.  Regexp features a dotted/indexed
path cannot contain (quantifiers, escapes, class ranges) are likewise
outside the modelled domain. -/
def compileRepGo : List Char → Option (List Char) → List RTok
  | [], none => []
  | [], some acc => RTok.lit '[' :: acc.reverse.map RTok.lit
  | c :: rest, none =>
    if c = '[' then compileRepGo rest (some [])
    else if c = '.' then RTok.wild :: compileRepGo rest none
    else RTok.lit c :: compileRepGo rest none
  | c :: rest, some acc =>
    if c = ']' then RTok.cls acc.reverse :: compileRepGo rest none
    else compileRepGo rest (some (c :: acc))

/-- The token list of an interpolated path string. -/
def compileRep (l : List Char) : List RTok :=
  compileRepGo l none

/-- Whether one pattern token matches one input character. -/
def matchTok : RTok → Char → Bool
  | RTok.lit l, c => l == c
  | RTok.wild, c => c != '\n' && c != '\r'
  | RTok.cls ms, c => ms.contains c

/-- Left-to-right match of a token list against the input; returns the
remainder of the input after the match. -/
def matchPat : List RTok → List Char → Option (List Char)
  | [], s => some s
  | _ :: _, [] => none
  | t :: ts, c :: cs => if matchTok t c then matchPat ts cs else none

/-- The characters on which interpolating a path into a `RegExp` keeps it
literal (with `'.'` as the wildcard): identifier characters and dots.  On
paths made of these the tokenizer produces no character class and the
match coincides with the interpolated regexp exactly. -/
def plainRepChar (c : Char) : Bool :=
  c.isAlphanum || c == '_' || c == '.'

/-- Matcher of `` new RegExp(`\{\{${rep}\[\]`, 'g') `` with replacement
`` `{{${rep}[${idx}]` ``: the braces and the trailing brackets are escaped
in the source pattern and match literally, while the interpolated `rep` is
read through `compileRep` — so a bracket index inside `rep` is a character
class there, as in JavaScript. -/
def mPat1 (rep : List Char) (idx : Nat) : List Char → Option (List Char × List Char)
  | c1 :: c2 :: rest =>
    if c1 = '{' ∧ c2 = '{' then
      match matchPat (compileRep rep) rest with
      | some s1 =>
        if s1.take 2 = ['[', ']'] then
          some ('{' :: '{' :: rep ++ '[' :: (toString idx).data ++ [']'], s1.drop 2)
        else none
      | none => none
    else none
  | _ => none

/-- Matcher of `` new RegExp(`\{\{${rep}\[\d*\]`, 'g') `` with replacement
`` `{{${rep}[${idx}]` ``; `rep` is read through `compileRep` as in
`mPat1`. -/
def mPat2 (rep : List Char) (idx : Nat) : List Char → Option (List Char × List Char)
  | c1 :: c2 :: rest =>
    if c1 = '{' ∧ c2 = '{' then
      match matchPat (compileRep rep) rest with
      | some s1 =>
        if s1.take 1 = ['['] then
          let rest2 := s1.drop 1
          let ds := takeDigits rest2
          if (rest2.drop ds.length).take 1 = [']'] then
            some ('{' :: '{' :: rep ++ '[' :: (toString idx).data ++ [']'],
                  (rest2.drop ds.length).drop 1)
          else none
        else none
      | none => none
    else none
  | _ => none

/-- Anchored match of `` new RegExp(`^${rep}\[\d*\]`) `` (used on
`data_path`): the tokenized path, then `[`, a digit run (possibly empty),
then `]`; returns the remainder. -/
def matchAnchoredIdx (rep : List Char) (s : List Char) : Option (List Char) :=
  match matchPat (compileRep rep) s with
  | some s1 =>
    if s1.take 1 = ['['] then
      let rest := s1.drop 1
      let ds := takeDigits rest
      if (rest.drop ds.length).take 1 = [']'] then some ((rest.drop ds.length).drop 1)
      else none
    else none
  | none => none

example : jsReplaceG mBracketDigits "a.b[1].c" = "a.b.1.c" := by decide
example : jsReplaceG mBracketDigits "a[12]x[]" = "a.12x[]" := by decide
example : jsReplaceG (mMustache (fun p => "<" ++ p ++ ">")) "x{{ a }}y{{b}}" = "x< a >y<b>" := by decide
example : jsReplaceG (mMustache (fun _ => "V")) "\x7b\x7ba\x7db\x7d\x7d" = "\x7b\x7ba\x7db\x7d\x7d" := by decide
example : jsReplaceG (mPat1 "sections.skill".data 2) "{{sections.skill[].t}}" = "{{sections.skill[2].t}}" := by decide
example : jsReplaceG (mPat2 "it.ms".data 7) "{{it.ms[0].t}} {{itIms[3].u}}" = "{{it.ms[7].t}} {{it.ms[7].u}}" := by decide
example : compileRep "s[0].t".data = [RTok.lit 's', RTok.cls ['0'], RTok.wild, RTok.lit 't'] := by decide
example : jsReplaceG (mPat1 "s[0].t".data 1) "{{s[0].t[]}}" = "{{s[0].t[]}}" := by decide
example : jsReplaceG (mPat1 "s[0].t".data 1) "{{s0xt[]}}" = "{{s[0].t[1]}}" := by decide
example : jsParseInt "12abc" = some 12 ∧ jsParseInt "x" = none ∧ jsParseInt "-4" = some (-4) := by decide

/-- `ASTNode` from `src/front/src/types` (the fields the renderers read).
`styles` is the node's style-property map (`Record<string, string>`,
insertion-ordered); an absent map is modelled by the empty list, which the
source treats identically (`convertStyles(undefined) = {}`, and
`styles?.background` misses). -/
structure ASTNode where
  id : String
  type : String
  tag : String
  class_name : Option String := none
  styles : List (String × String) := []
  content : Option String := none
  data_path : Option String := none
  children : List ASTNode
  editable : Option Bool := none
  draggable : Option Bool := none
  «repeat» : Option String := none
deriving Repr, Inhabited

/-- `SectionData` from `src/front/src/types`: one resume section. -/
structure SectionData where
  id : String
  type : String
  content : List (String × Json)
deriving Repr, Inhabited

/-- A section viewed as the JSON object the path resolvers walk. -/
def SectionData.toJson (s : SectionData) : Json :=
  .obj [("id", .str s.id), ("type", .str s.type), ("content", .obj s.content)]

/-- `ResumeData` from `src/front/src/types`: profile record plus the
ordered section list. -/
structure ResumeData where
  profile : Json
  sections : List SectionData
deriving Repr, Inhabited

/-- Resume data viewed as the JSON object the path resolvers walk. -/
def ResumeData.toJson (d : ResumeData) : Json :=
  .obj [("profile", d.profile), ("sections", .arr (d.sections.map SectionData.toJson))]

/-- The source idiom `Array.isArray(value) ? value.join(', ') : String(value || '')`
applied to a resolution result (`none` = `undefined`). -/
def renderValue : Option Json → String
  | some (.arr xs) => jsJoin ", " xs
  | some j => if jsFalsy j then "" else jsToString j
  | none => ""

/-- The source idiom `Array.isArray(v) ? v.join(', ') : String(v)` used for
a direct repeat-item hit (note: no `|| ''` fallback, so `null` prints as
`"null"` and `0` as `"0"` here). -/
def renderDirect : Json → String
  | .arr xs => jsJoin ", " xs
  | j => jsToString j

/-- `String(v || '')` on a plain property access (no array special case):
used by the `type`/`id` branch of the interactive resolver. -/
def jsStringOrEmpty : Option Json → String
  | some j => if jsFalsy j then "" else jsToString j
  | none => ""

/-- The match `/^sections\.(.+)$/`: returns the captured raw type when the
string is `sections.` followed by a non-empty run of non-line-terminator
characters. -/
def sectionsTypeOf (rep : String) : Option String :=
  if jsStartsWith rep "sections." then
    let rest := rep.data.drop 9
    if rest ≠ [] ∧ rest.all (fun c => c ≠ '\n' ∧ c ≠ '\r') then some (String.mk rest)
    else none
  else none

/-- The match `/^sections\[\d*\]\.(.+)$/` of the interactive resolver:
`sections[`, an optional digit run, `].`, then a non-empty field path. -/
def sectionsIdxMatch (t : String) : Option String :=
  if jsStartsWith t "sections[" then
    let after := t.data.drop 9
    let ds := takeDigits after
    match after.drop ds.length with
    | ']' :: '.' :: rest =>
      if rest ≠ [] ∧ rest.all (fun c => c ≠ '\n' ∧ c ≠ '\r') then some (String.mk rest)
      else none
    | _ => none
  else none

/-- The fixed void-element set shared by both renderers. -/
def VOID_ELEMENTS : List String :=
  ["area", "base", "br", "col", "embed", "hr", "img", "input",
   "link", "meta", "param", "source", "track", "wbr"]

example : sectionsTypeOf "sections.project" = some "project" := by decide
example : sectionsTypeOf "sections" = none := by decide
example : sectionsIdxMatch "sections[0].content.title" = some "content.title" := by decide
example : sectionsIdxMatch "sections[].x" = some "x" := by decide

namespace ASTR

/-- `toCamelCase` of ASTRenderer: `str.replace(/_([a-z])/g, upper)`. -/
def toCamelCaseM : List Char → Option (List Char × List Char)
  | '_' :: c :: rest => if 'a' ≤ c ∧ c ≤ 'z' then some ([c.toUpper], rest) else none
  | _ => none

/-- `toCamelCase` of ASTRenderer (snake_case → camelCase). -/
def toCamelCase (s : String) : String := jsReplaceG toCamelCaseM s

/-- `convertStyles` of ASTRenderer: camel-cases the property names and
keeps the string values (the source also drops `undefined`/`null` values,
which the total model has none of). -/
def convertStyles (styles : List (String × String)) : List (String × String) :=
  styles.map (fun p => (toCamelCase p.1, p.2))

/-- The walk loop of ASTRenderer's `getValueByPath` over the split
segments; `none` models `undefined`. -/
def gvWalk : List String → Option Json → Option Json
  | [], cur => cur
  | part :: rest, cur =>
    match cur with
    | none => some (Json.str "")
    | some j =>
      match j with
      | Json.null => some (Json.str "")
      | Json.arr xs =>
        match jsParseInt part with
        | some i => gvWalk rest (if 0 ≤ i then xs[i.toNat]? else none)
        | none => gvWalk rest (jsGetProp j part)
      | Json.obj _ => gvWalk rest (jsGetProp j part)
      | _ => some (Json.str "")

/-- `getValueByPath` of ASTRenderer (array-index aware): guards falsy
root/path, rewrites `[N]` to `.N`, splits on `.`, then walks. -/
def getValueByPath (obj : Json) (path : String) : Option Json :=
  if jsFalsy obj || path = "" then some (Json.str "")
  else gvWalk (splitDot (jsReplaceG mBracketDigits path)) (some obj)

/-- `getValueByPath` applied to a possibly-`undefined` object (the
`repeatItem.content` call): `!obj` short-circuits to the sentinel. -/
def getValueByPathO (obj : Option Json) (path : String) : Option Json :=
  match obj with
  | none => some (Json.str "")
  | some j => getValueByPath j path

/-- `SECTION_TYPE_MAP` of ASTRenderer. -/
def SECTION_TYPE_MAP : List (String × List String) :=
  [("skill", ["skill", "skills", "技能", "专业技能"]),
   ("education", ["education", "educations", "教育", "教育背景", "学历"]),
   ("experience", ["experience", "experiences", "经验", "工作经验", "工作经历"]),
   ("project", ["project", "projects", "项目", "项目经历"])]

/-- `normalizeType` of ASTRenderer: first canonical kind with a
case-insensitive synonym match, else `null`. -/
def normalizeType (typeName : String) : Option String :=
  let lowerType := jsToLower typeName
  (SECTION_TYPE_MAP.find? (fun p => p.2.any (fun v => jsToLower v == lowerType))).map (·.1)

/-- The per-placeholder resolver of ASTRenderer's `resolveContent`
(the callback of `content.replace(/\{\{([^}]+)\}\}/g, …)`). -/
def resolveVar (data : ResumeData) (repeatItem : Option Json) (path : String) : String :=
  let t := jsTrim path
  match repeatItem with
  | some item =>
    if jsStartsWith t "item." then renderValue (getValueByPath item (strDrop t 5))
    else if jsStartsWith t "section." then renderValue (getValueByPath item (strDrop t 8))
    else
      match sectionsIdxMatch t with
      | some fieldPath => renderValue (getValueByPath item fieldPath)
      | none =>
        if jsStartsWith t "content." then
          renderValue (getValueByPathO (jsGetProp item "content") (strDrop t 8))
        else if t = "type" ∨ t = "id" then jsStringOrEmpty (jsGetProp item t)
        else
          match getValueByPath item t with
          | none => renderValue (getValueByPath data.toJson t)
          | some (Json.str "") => renderValue (getValueByPath data.toJson t)
          | some j => renderDirect j
  | none => renderValue (getValueByPath data.toJson t)

/-- `resolveContent` of ASTRenderer (the `repeatIndex` parameter is
declared by the source but never read). -/
def resolveContent (content : Option String) (data : ResumeData)
    (repeatItem : Option Json) (_repeatIndex : Option Nat) : String :=
  match content with
  | none => ""
  | some s => jsReplaceG (mMustache (resolveVar data repeatItem)) s

/-- The content rewriting of `updateNodePaths`: the two chained global
replaces `\{\{rep\[\]` and `\{\{rep\[\d*\]`, both pinning `[index]`. -/
def rewritePat (rep : String) (idx : Nat) (s : String) : String :=
  jsReplaceG (mPat2 rep.data idx) (jsReplaceG (mPat1 rep.data idx) s)

/-- The `data_path` rewriting of `updateNodePaths`: an anchored
`^rep\[\d*\]` replaced by `rep[index]` (applied only after the
`startsWith` guard). -/
def rewriteDataPath (rep : String) (idx : Nat) (dp : String) : String :=
  match matchAnchoredIdx rep.data dp.data with
  | some rem => rep ++ "[" ++ toString idx ++ "]" ++ String.mk rem
  | none => dp

mutual
/-- `updateNodePaths` of ASTRenderer: rewrites the node's `content` and
`data_path` for iteration `index` of `repeatPath` and recurses into the
children. -/
def updateNodePaths : ASTNode → String → Nat → ASTNode
  | ⟨i, ty, tg, cn, st, co, dp, ch, ed, dr, rp⟩, repeatPath, index =>
    ⟨i, ty, tg, cn, st,
     co.map (rewritePat repeatPath index),
     (match dp with
      | some d =>
        some (if jsStartsWith d (repeatPath ++ "[") then rewriteDataPath repeatPath index d else d)
      | none => none),
     updateNodePathsL ch repeatPath index, ed, dr, rp⟩

/-- `updateNodePaths` mapped over a child list. -/
def updateNodePathsL : List ASTNode → String → Nat → List ASTNode
  | [], _, _ => []
  | c :: cs, repeatPath, index =>
    updateNodePaths c repeatPath index :: updateNodePathsL cs repeatPath index
end

/-- The clone the repeat branch of `ASTNodeRenderer` passes to
`updateNodePaths`: id suffixed with `-index`, repeat cleared. -/
def expandClone (node : ASTNode) (rep : String) (index : Nat) : ASTNode :=
  updateNodePaths { node with id := node.id ++ "-" ++ toString index, «repeat» := none } rep index

/-- The `repeatData` computation of `ASTNodeRenderer`'s repeat branch:
`some items` when `repeatData` is an array (`sections.<X>` filter,
`sections`, or a generic path whose value is an array or falsy);
`none` when it is a truthy non-array (then `Array.isArray` fails and the
node falls through to normal rendering). -/
def astRepeatData (rep : String) (data : ResumeData) : Option (List Json) :=
  match sectionsTypeOf rep with
  | some rawType =>
    let filtered : List SectionData :=
      match normalizeType rawType with
      | some t => data.sections.filter (fun s => s.type = t)
      | none => data.sections.filter (fun s => s.type = rawType)
    some (filtered.map SectionData.toJson)
  | none =>
    if rep = "sections" then some (data.sections.map SectionData.toJson)
    else
      match getValueByPath data.toJson rep with
      | some (Json.arr xs) => some xs
      | some j => if jsFalsy j then some [] else none
      | none => some []

end ASTR

/-- The rendered output of the interactive renderer, with the interaction
state in its initial configuration (not hovered, not dragging, not
selected): element nodes carry the tag, `className`, the data-derived
style map, the `img` source when present, and the ordered children;
the constant affordance styles (`cursor`/`outline`/`opacity`/`position`)
and the event handlers are presentation-only and carry no data. -/
inductive RTree where
  | elem (tag className : String) (styles : List (String × String))
      (src : Option String) (children : List RTree)
  | text (s : String)
deriving Repr

namespace ASTR

/-- The non-repeat body of `ASTNodeRenderer`: resolves content, renders
children with the inherited repeat context, and emits the element —
self-closing for void tags, with the `img` source fallback
(`resolvedContent || styles?.background`, rendering nothing when both
miss), otherwise content before children. -/
def renderBody (recur : ASTNode → Option Json → Option Nat → List RTree)
    (node : ASTNode) (data : ResumeData)
    (repeatItem : Option Json) (repeatIndex : Option Nat) : List RTree :=
  let resolvedContent := resolveContent node.content data repeatItem repeatIndex
  let children := node.children.flatMap (fun c => recur c repeatItem repeatIndex)
  let className := node.class_name.getD ""
  let styles := convertStyles node.styles
  if VOID_ELEMENTS.contains (jsToLower node.tag) then
    if jsToLower node.tag = "img" then
      let bg := (node.styles.find? (fun p => p.1 == "background")).map (·.2)
      let imgSrc : Option String := if resolvedContent ≠ "" then some resolvedContent else bg
      match imgSrc with
      | none => []
      | some src => if src = "" then [] else [RTree.elem node.tag className styles (some src) []]
    else [RTree.elem node.tag className styles none []]
  else [RTree.elem node.tag className styles none (RTree.text resolvedContent :: children)]

/-- `ASTNodeRenderer` of ASTRenderer: the repeat branch expands and
recurses on index-rewritten clones when `repeatData` is a non-empty
array; otherwise (including an empty array) the node falls through to the
normal body. -/
def renderNode : Nat → ASTNode → ResumeData → Option Json → Option Nat → List RTree
  | 0, _, _, _, _ => []
  | fuel + 1, node, data, repeatItem, repeatIndex =>
    if strTruthy node.«repeat» then
      let rep := node.«repeat».getD ""
      match astRepeatData rep data with
      | some items =>
        if items.length > 0 then
          items.enum.flatMap (fun p =>
            renderNode fuel (expandClone node rep p.1) data (some p.2) (some p.1))
        else renderBody (fun c ri ix => renderNode fuel c data ri ix) node data repeatItem repeatIndex
      | none => renderBody (fun c ri ix => renderNode fuel c data ri ix) node data repeatItem repeatIndex
    else renderBody (fun c ri ix => renderNode fuel c data ri ix) node data repeatItem repeatIndex

end ASTR

mutual
/-- Concatenated text content of a rendered tree (content precedes
children by construction of `RTree`). -/
def extractText : RTree → String
  | .text s => s
  | .elem _ _ _ _ kids => extractTextL kids
/-- Concatenated text content of a rendered forest. -/
def extractTextL : List RTree → String
  | [] => ""
  | t :: ts => extractText t ++ extractTextL ts
end

namespace Editor

/-- The walk loop of Editor's `getValueByPath` (textually the same loop as
ASTRenderer's; kept separate because the two files implement it
independently). -/
def gvWalk : List String → Option Json → Option Json
  | [], cur => cur
  | part :: rest, cur =>
    match cur with
    | none => some (Json.str "")
    | some j =>
      match j with
      | Json.null => some (Json.str "")
      | Json.arr xs =>
        match jsParseInt part with
        | some i => gvWalk rest (if 0 ≤ i then xs[i.toNat]? else none)
        | none => gvWalk rest (jsGetProp j part)
      | Json.obj _ => gvWalk rest (jsGetProp j part)
      | _ => some (Json.str "")

/-- `getValueByPath` of Editor. -/
def getValueByPath (obj : Json) (path : String) : Option Json :=
  if jsFalsy obj || path = "" then some (Json.str "")
  else gvWalk (splitDot (jsReplaceG mBracketDigits path)) (some obj)

/-- The per-placeholder resolver of Editor's `resolveContent`: `item.`
prefix, then `content.` prefix, then a direct repeat-item hit (used when
neither `''` nor `undefined`), then the global path. -/
def resolveVar (data : ResumeData) (repeatItem : Option Json) (path : String) : String :=
  let t := jsTrim path
  match repeatItem with
  | some item =>
    if jsStartsWith t "item." then renderValue (getValueByPath item (strDrop t 5))
    else if jsStartsWith t "content." then
      renderValue (ASTR.getValueByPathO (jsGetProp item "content") (strDrop t 8))
    else
      match getValueByPath item t with
      | none => renderValue (getValueByPath data.toJson t)
      | some (Json.str "") => renderValue (getValueByPath data.toJson t)
      | some j => renderDirect j
  | none => renderValue (getValueByPath data.toJson t)

/-- `resolveContent` of Editor. -/
def resolveContent (content : Option String) (data : ResumeData)
    (repeatItem : Option Json) : String :=
  match content with
  | none => ""
  | some s => jsReplaceG (mMustache (resolveVar data repeatItem)) s

/-- `SECTION_TYPE_MAP` of Editor. -/
def SECTION_TYPE_MAP : List (String × List String) :=
  [("skill", ["skill", "skills", "技能", "专业技能"]),
   ("education", ["education", "educations", "教育", "教育背景", "学历"]),
   ("experience", ["experience", "experiences", "经验", "工作经验", "工作经历"]),
   ("project", ["project", "projects", "项目", "项目经历"])]

/-- `normalizeType` of Editor. -/
def normalizeType (typeName : String) : Option String :=
  let lowerType := jsToLower typeName
  (SECTION_TYPE_MAP.find? (fun p => p.2.any (fun v => jsToLower v == lowerType))).map (·.1)

/-- `convertStylesToCSS` of Editor: snake_case keys become kebab-case,
entries join as `key: value` with `"; "`. -/
def convertStylesToCSS (styles : List (String × String)) : String :=
  String.intercalate "; "
    (styles.map (fun p => String.mk (p.1.data.map (fun c => if c = '_' then '-' else c)) ++ ": " ++ p.2))

/-- The `repeatData` computation of `astToHtml`: only the `sections.<X>`
filter and the plain `sections` source; every other repeat directive
yields the empty list. -/
def editorRepeatData (rep : String) (data : ResumeData) : List SectionData :=
  match sectionsTypeOf rep with
  | some rawType =>
    match normalizeType rawType with
    | some t => data.sections.filter (fun s => s.type = t)
    | none => data.sections.filter (fun s => s.type = rawType)
  | none => if rep = "sections" then data.sections else []

/-- The attribute string `astToHtml` builds: the `class` attribute (when
`class_name` is truthy) followed by the `style` attribute (when the CSS
string is non-empty), space-joined with a leading space. -/
def buildAttrs (node : ASTNode) : String :=
  let attrs : List String :=
    (if strTruthy node.class_name then ["class=\"" ++ node.class_name.getD "" ++ "\""] else []) ++
    (let styleStr := convertStylesToCSS node.styles
     if styleStr ≠ "" then ["style=\"" ++ styleStr ++ "\""] else [])
  if attrs.length > 0 then " " ++ String.intercalate " " attrs else ""

/-- `astToHtml` of Editor: repeat nodes expand over `editorRepeatData`
(yielding `""` when empty); otherwise one element is emitted —
self-closing for void tags (with no content, children, or source),
otherwise `class`/`style` attributes, interpolated content, then the
children joined with newlines. -/
def astToHtml : Nat → ASTNode → ResumeData → Option Json → String
  | 0, _, _, _ => ""
  | fuel + 1, node, data, repeatItem =>
    if strTruthy node.«repeat» then
      let items := editorRepeatData (node.«repeat».getD "") data
      if items.length > 0 then
        String.intercalate "\n"
          (items.map (fun item => astToHtml fuel { node with «repeat» := none } data (some item.toJson)))
      else ""
    else
      let tag := if node.tag = "" then "div" else node.tag
      let attrStr := buildAttrs node
      let content := resolveContent node.content data repeatItem
      let childrenHtml :=
        String.intercalate "\n" (node.children.map (fun c => astToHtml fuel c data repeatItem))
      if VOID_ELEMENTS.contains (jsToLower tag) then
        "<" ++ tag ++ attrStr ++ " />"
      else
        "<" ++ tag ++ attrStr ++ ">" ++ content ++ childrenHtml ++ "</" ++ tag ++ ">"

end Editor

/-- Modelled from the spec (§4.3, claim C4): the four-step resolution
order for one placeholder — (1) `item.` prefix against the repeat item,
(2) `content.` prefix against the repeat item's `content`, (3) the full
path directly against the repeat item, used when the result is usable
(neither the empty-string sentinel nor `undefined`), (4) the global path
against the data; direct global resolution when no repeat item is bound.
Written as a comparison point for the source's resolvers. -/
def fourStepResolve (data : ResumeData) (repeatItem : Option Json) (path : String) : String :=
  let t := jsTrim path
  match repeatItem with
  | some item =>
    if jsStartsWith t "item." then renderValue (Editor.getValueByPath item (strDrop t 5))
    else if jsStartsWith t "content." then
      renderValue (ASTR.getValueByPathO (jsGetProp item "content") (strDrop t 8))
    else
      match Editor.getValueByPath item t with
      | none => renderValue (Editor.getValueByPath data.toJson t)
      | some (Json.str "") => renderValue (Editor.getValueByPath data.toJson t)
      | some j => renderDirect j
  | none => renderValue (Editor.getValueByPath data.toJson t)

/-- Modelled from the spec (§4.3, claim C4): interpolation replacing every
`{{…}}` placeholder by its four-step resolution. -/
def fourStepInterpolate (content : Option String) (data : ResumeData)
    (repeatItem : Option Json) : String :=
  match content with
  | none => ""
  | some s => jsReplaceG (mMustache (fourStepResolve data repeatItem)) s

/-- Bare tree shape of a node (tag and child arities), used to state that
path rewriting preserves the tree shape. -/
inductive Shape where
  | mk (tag : String) (kids : List Shape)
deriving Repr

mutual
/-- Shape of a node. -/
def nodeShape : ASTNode → Shape
  | ⟨_, _, tg, _, _, _, _, ch, _, _, _⟩ => .mk tg (nodeShapeL ch)
/-- Shapes of a child list. -/
def nodeShapeL : List ASTNode → List Shape
  | [] => []
  | c :: cs => nodeShape c :: nodeShapeL cs
end

/-!  Concrete inputs used by witnesses and counterexamples. -/

/-- `{a: {b: [10, 20]}}` from the specification's path-resolution tests. -/
def exPathObj : Json := .obj [("a", .obj [("b", .arr [.num 10, .num 20])])]

/-- A repeat item `{type: "experience", content: {title: "A"}}`. -/
def exItem : Json := .obj [("type", .str "experience"), ("content", .obj [("title", .str "A")])]

/-- A small resume data value with a one-field profile and no sections. -/
def exData : ResumeData := ⟨.obj [("name", .str "N")], []⟩

/-- A node with an empty-expanding repeat directive (claim C2). -/
def exEmptyRepeatNode : ASTNode :=
  { id := "n", type := "s", tag := "div", class_name := some "c",
    content := some "hi", children := [], «repeat» := some "sections.project" }

/-- A node with a generic-path repeat directive (claim C1). -/
def exGenericRepeatNode : ASTNode :=
  { id := "n", type := "t", tag := "div", content := some "x", children := [],
    «repeat» := some "profile.items" }

/-- Data for `exGenericRepeatNode`: `profile.items` is a two-element array. -/
def exGenericData : ResumeData := ⟨.obj [("items", .arr [.num 1, .num 2])], []⟩

/-- The img node of the specification's void-element scenario (claim C3). -/
def exImgNode : ASTNode :=
  { id := "i", type := "image", tag := "img", content := some "{{profile.avatar}}", children := [] }

/-- Data with `profile.avatar = "x.png"`. -/
def exAvatarData : ResumeData := ⟨.obj [("avatar", .str "x.png")], []⟩

/-- Data with `profile.avatar` absent. -/
def exNoAvatarData : ResumeData := ⟨.obj [], []⟩

/-- A node whose class name contains a raw double quote (claim C10). -/
def exQuoteNode : ASTNode :=
  { id := "q", type := "t", tag := "div", class_name := some "pre\"post",
    content := some "{{profile.name}}", children := [] }

/-- Data whose profile name contains markup metacharacters. -/
def exMarkupData : ResumeData := ⟨.obj [("name", .str "<b>&\"")], []⟩

/-- Two experience sections titled `A` and `B` (spec §8 repeat test). -/
def exSections : List SectionData :=
  [⟨"s1", "experience", [("title", .str "A")]⟩, ⟨"s2", "experience", [("title", .str "B")]⟩]

/-- A repeat node binding `{{item.content.title}}` over the experiences. -/
def exRepeatNode : ASTNode :=
  { id := "r", type := "sec", tag := "div",
    content := some "{{item.content.title}}", children := [], «repeat» := some "sections.experience" }

/-- A node whose repeat path carries a bracket index (claim C8): the path
`profile.items[0].x` is resolvable by `getValueByPath` (whose bracket
normalization accepts it), but interpolating it into the rewriting
`RegExp` turns `[0]` into a character class. -/
def exBracketRepNode : ASTNode :=
  { id := "b", type := "t", tag := "div",
    content := some "{{profile.items[0].x[]}}", children := [],
    «repeat» := some "profile.items[0].x" }

/-- Data for `exBracketRepNode`: `profile.items[0].x` is a one-element
array, so the repeat expansion yields the pair `(1, 0)`. -/
def exBracketData : ResumeData :=
  ⟨.obj [("items", .arr [.obj [("x", .arr [.num 1])]])], []⟩

/-- `typeof v === 'object'` for a defined value: true exactly on arrays and
objects (`null` is tested separately by the walk before this check). -/
def jsComposite : Json → Bool
  | .arr _ => true
  | .obj _ => true
  | _ => false

/-! ## Generic lemmas about the replace scanner -/

/-- Scans with pointwise-equal matchers agree. -/
theorem scanRF_congr {m₁ m₂ : List Char → Option (List Char × List Char)}
    (h : ∀ s, m₁ s = m₂ s) : ∀ F s, scanRF m₁ F s = scanRF m₂ F s := by
  intro F
  induction F with
  | zero => intro s; rfl
  | succ F ih =>
    intro s
    cases s with
    | nil => rfl
    | cons c rest =>
      simp only [scanRF, h]
      cases m₂ (c :: rest) with
      | none => simp [ih]
      | some p => simp [ih]

/-- For a consuming matcher, any two sufficient fuels give the same scan. -/
theorem scanRF_fuel {m : List Char → Option (List Char × List Char)} (hm : MatcherOK m) :
    ∀ F₁ F₂ s, s.length ≤ F₁ → s.length ≤ F₂ → scanRF m F₁ s = scanRF m F₂ s := by
  intro F₁
  induction F₁ with
  | zero =>
    intro F₂ s h1 _
    have : s = [] := List.eq_nil_of_length_eq_zero (Nat.le_zero.mp h1)
    subst this
    cases F₂ <;> rfl
  | succ F ih =>
    intro F₂ s h1 h2
    cases s with
    | nil => cases F₂ <;> rfl
    | cons c rest =>
      cases F₂ with
      | zero => simp at h2
      | succ F₂ =>
        simp only [scanRF]
        cases hmc : m (c :: rest) with
        | none =>
          simp only [List.length_cons] at h1 h2
          rw [ih F₂ rest (by omega) (by omega)]
        | some p =>
          obtain ⟨out, rem⟩ := p
          have hlt := hm _ _ _ hmc
          simp only [List.length_cons] at h1 h2 hlt
          show out ++ scanRF m F rem = out ++ scanRF m F₂ rem
          rw [ih F₂ rem (by omega) (by omega)]

/-- Scanning passes over a region none of whose suffixes starts a match. -/
theorem scanRF_pass {m : List Char → Option (List Char × List Char)} :
    ∀ (p : List Char) (G : Nat) (x : List Char),
      (∀ s', s' ≠ [] → s' <:+ p → m (s' ++ x) = none) →
      scanRF m (p.length + G) (p ++ x) = p ++ scanRF m G x := by
  intro p
  induction p with
  | nil => intro G x _; simp
  | cons c cs ih =>
    intro G x h
    have h0 : m (c :: (cs ++ x)) = none := h (c :: cs) (by simp) (List.suffix_refl _)
    have hstep : scanRF m (cs.length + G + 1) (c :: (cs ++ x))
        = c :: scanRF m (cs.length + G) (cs ++ x) := by
      simp only [scanRF, h0]
    have hlen : (c :: cs).length + G = cs.length + G + 1 := by
      simp [Nat.add_right_comm]
    calc scanRF m ((c :: cs).length + G) ((c :: cs) ++ x)
        = scanRF m (cs.length + G + 1) (c :: (cs ++ x)) := by rw [hlen, List.cons_append]
      _ = c :: scanRF m (cs.length + G) (cs ++ x) := hstep
      _ = c :: (cs ++ scanRF m G x) := by
          rw [ih G x (fun s' h1 h2 => h s' h1 (h2.trans (List.suffix_cons c cs)))]
      _ = (c :: cs) ++ scanRF m G x := rfl

/-- One firing step of the scan. -/
theorem scanRF_head {m : List Char → Option (List Char × List Char)}
    {c : Char} {rest out rem : List Char} (h : m (c :: rest) = some (out, rem)) (F : Nat) :
    scanRF m (F + 1) (c :: rest) = out ++ scanRF m F rem := by
  simp [scanRF, h]

/-! ## Matching lemmas -/

/-- A character of the plain path alphabet is neither a bracket nor a
brace. -/
theorem plainRepChar_ne {c : Char} (h : plainRepChar c = true) :
    c ≠ '[' ∧ c ≠ '{' := by
  constructor <;> intro he <;> rw [he] at h <;> exact absurd h (by decide)

/-- On a path without brackets the tokenizer yields only literals and
wildcards. -/
theorem compileRep_plain : ∀ (l : List Char), (∀ c ∈ l, plainRepChar c = true) →
    compileRep l = l.map (fun c => if c = '.' then RTok.wild else RTok.lit c) := by
  intro l
  induction l with
  | nil => intro _; rfl
  | cons c cs ih =>
    intro h
    have hc := h c (List.mem_cons_self c cs)
    have hcs : ∀ d ∈ cs, plainRepChar d = true := fun d hd => h d (List.mem_cons_of_mem c hd)
    have hne : ¬ c = '[' := (plainRepChar_ne hc).1
    show compileRepGo (c :: cs) none = _
    by_cases hdot : c = '.'
    · subst hdot
      simp only [compileRepGo, if_neg (by decide : ¬ ('.' : Char) = '['), if_pos rfl,
        List.map_cons, if_pos rfl]
      exact congrArg _ (ih hcs)
    · simp only [compileRepGo, if_neg hne, if_neg hdot, List.map_cons]
      exact congrArg _ (ih hcs)

/-- A literal/wildcard token list always matches its own text. -/
theorem matchPat_map_refl : ∀ (l x : List Char),
    matchPat (l.map (fun c => if c = '.' then RTok.wild else RTok.lit c)) (l ++ x)
      = some x := by
  intro l
  induction l with
  | nil => intro x; rfl
  | cons c cs ih =>
    intro x
    by_cases hdot : c = '.'
    · subst hdot
      have hstep : matchPat
            (List.map (fun c => if c = '.' then RTok.wild else RTok.lit c) ('.' :: cs))
            (('.' :: cs) ++ x)
          = matchPat (List.map (fun c => if c = '.' then RTok.wild else RTok.lit c) cs)
              (cs ++ x) := rfl
      rw [hstep]
      exact ih x
    · simp only [List.map_cons, if_neg hdot, List.cons_append, matchPat]
      rw [if_pos (by simp [matchTok] : matchTok (RTok.lit c) c = true)]
      exact ih x

/-- An interpolated plain path always matches its own text. -/
theorem matchPat_refl_plain (l x : List Char) (h : ∀ c ∈ l, plainRepChar c = true) :
    matchPat (compileRep l) (l ++ x) = some x := by
  rw [compileRep_plain l h]
  exact matchPat_map_refl l x

/-- A token match consumes exactly one input character per token. -/
theorem matchPat_length : ∀ (ts : List RTok) (s rem : List Char), matchPat ts s = some rem →
    rem.length + ts.length = s.length := by
  intro ts
  induction ts with
  | nil =>
    intro s rem h
    simp only [matchPat, Option.some.injEq] at h
    simp [h]
  | cons t ts ih =>
    intro s rem h
    cases s with
    | nil => simp [matchPat] at h
    | cons d ds =>
      simp only [matchPat] at h
      by_cases hc : matchTok t d = true
      · rw [if_pos hc] at h
        have := ih ds rem h
        simp only [List.length_cons]
        omega
      · rw [if_neg hc] at h
        exact absurd h (by simp)

/-- A digit run followed by a non-digit character is its own
`takeWhile isDigit`. -/
theorem takeDigits_append (ds : List Char) (e : Char) (t : List Char)
    (h : ∀ c ∈ ds, c.isDigit) (he : ¬ e.isDigit) :
    takeDigits (ds ++ e :: t) = ds := by
  unfold takeDigits
  rw [List.takeWhile_append_of_pos (by simpa using h)]
  simp [List.takeWhile, he]

/-- `Nat.toDigitsCore` in base ten only ever prepends decimal digits. -/
theorem toDigitsCore_digits : ∀ (f n : Nat) (acc : List Char),
    (∀ c ∈ acc, c.isDigit) → ∀ c ∈ Nat.toDigitsCore 10 f n acc, c.isDigit := by
  intro f
  induction f with
  | zero => intro n acc hacc; simpa [Nat.toDigitsCore] using hacc
  | succ f ih =>
    intro n acc hacc
    have hd : (Nat.digitChar (n % 10)).isDigit := by
      have h10 : n % 10 < 10 := Nat.mod_lt _ (by norm_num)
      interval_cases h : n % 10 <;> decide
    simp only [Nat.toDigitsCore]
    split
    · intro c hc
      rcases List.mem_cons.mp hc with h | h
      · simpa [h] using hd
      · exact hacc c h
    · exact ih (n / 10) (Nat.digitChar (n % 10) :: acc)
        (fun c hc => by
          rcases List.mem_cons.mp hc with h | h
          · simpa [h] using hd
          · exact hacc c h)

/-- `Nat.toDigitsCore` with positive fuel never returns the empty list
when started from any accumulator it could extend, in particular `[]`. -/
theorem toDigitsCore_ne_nil : ∀ (f n : Nat) (acc : List Char), 1 ≤ f →
    Nat.toDigitsCore 10 f n acc ≠ [] := by
  intro f
  induction f with
  | zero => intro n acc h; omega
  | succ f ih =>
    intro n acc _
    simp only [Nat.toDigitsCore]
    split
    · simp
    · cases hf : f with
      | zero => subst hf; simp [Nat.toDigitsCore]
      | succ f' => subst hf; exact ih (n / 10) (Nat.digitChar (n % 10) :: acc) (by omega)

/-- Every character of `toString (n : Nat)` is a decimal digit. -/
theorem natToString_digits (n : Nat) : ∀ c ∈ (toString n).data, c.isDigit := by
  intro c hc
  have : (toString n).data = Nat.toDigitsCore 10 (n + 1) n [] := rfl
  rw [this] at hc
  exact toDigitsCore_digits (n + 1) n [] (by simp) c hc

/-- `toString (n : Nat)` is never the empty string. -/
theorem natToString_ne_nil (n : Nat) : (toString n).data ≠ [] := by
  have : (toString n).data = Nat.toDigitsCore 10 (n + 1) n [] := rfl
  rw [this]
  exact toDigitsCore_ne_nil (n + 1) n [] (by omega)

/-- Dropping never lengthens a list. -/
theorem lenDropLe (n : Nat) (l : List Char) : (l.drop n).length ≤ l.length := by
  rw [List.length_drop]; omega

/-- The bracket-normalization matcher consumes characters. -/
theorem mBracketDigits_ok : MatcherOK mBracketDigits := by
  intro s out rem h
  cases s with
  | nil => simp [mBracketDigits] at h
  | cons c rest =>
    simp only [mBracketDigits] at h
    by_cases hc : c = '['
    · rw [if_pos hc] at h
      by_cases hcond : takeDigits rest ≠ [] ∧ (rest.drop (takeDigits rest).length).take 1 = [']']
      · rw [if_pos hcond] at h
        simp only [Option.some.injEq, Prod.mk.injEq] at h
        have := h.2
        subst this
        have h1 := lenDropLe (takeDigits rest).length rest
        have h2 := lenDropLe 1 (rest.drop (takeDigits rest).length)
        simp only [List.length_cons]
        omega
      · rw [if_neg hcond] at h; exact absurd h (by simp)
    · rw [if_neg hc] at h; exact absurd h (by simp)

/-- The mustache matcher consumes characters. -/
theorem mMustache_ok (f : String → String) : MatcherOK (mMustache f) := by
  intro s out rem h
  match s with
  | [] => simp [mMustache] at h
  | [c] => simp [mMustache] at h
  | c1 :: c2 :: rest =>
    simp only [mMustache] at h
    by_cases hc : c1 = '{' ∧ c2 = '{'
    · rw [if_pos hc] at h
      by_cases hcond : rest.takeWhile (· ≠ '}') ≠ [] ∧
          (rest.drop (rest.takeWhile (· ≠ '}')).length).take 2 = ['}', '}']
      · rw [if_pos hcond] at h
        simp only [Option.some.injEq, Prod.mk.injEq] at h
        have := h.2
        subst this
        have h1 := lenDropLe (rest.takeWhile (· ≠ '}')).length rest
        have h2 := lenDropLe 2 (rest.drop (rest.takeWhile (· ≠ '}')).length)
        simp only [List.length_cons]
        omega
      · rw [if_neg hcond] at h; exact absurd h (by simp)
    · rw [if_neg hc] at h; exact absurd h (by simp)

/-- The `\{\{rep\[\]` matcher consumes characters. -/
theorem mPat1_ok (rep : List Char) (idx : Nat) : MatcherOK (mPat1 rep idx) := by
  intro s out rem h
  match s with
  | [] => simp [mPat1] at h
  | [c] => simp [mPat1] at h
  | c1 :: c2 :: rest =>
    simp only [mPat1] at h
    by_cases hc : c1 = '{' ∧ c2 = '{'
    · rw [if_pos hc] at h
      cases hw : matchPat (compileRep rep) rest with
      | none => rw [hw] at h; exact absurd h (by simp)
      | some s1 =>
        rw [hw] at h
        have h' : (if s1.take 2 = ['[', ']'] then
            some (('{' :: '{' :: rep ++ '[' :: (toString idx).data ++ [']'] : List Char), s1.drop 2)
          else none) = some (out, rem) := h
        by_cases ht : s1.take 2 = ['[', ']']
        · rw [if_pos ht] at h'
          simp only [Option.some.injEq, Prod.mk.injEq] at h'
          have := h'.2
          subst this
          have hlen := matchPat_length (compileRep rep) rest s1 hw
          have h2 := lenDropLe 2 s1
          simp only [List.length_cons]
          omega
        · rw [if_neg ht] at h'; exact absurd h' (by simp)
    · rw [if_neg hc] at h; exact absurd h (by simp)

/-- The `\{\{rep\[\d*\]` matcher consumes characters. -/
theorem mPat2_ok (rep : List Char) (idx : Nat) : MatcherOK (mPat2 rep idx) := by
  intro s out rem h
  match s with
  | [] => simp [mPat2] at h
  | [c] => simp [mPat2] at h
  | c1 :: c2 :: rest =>
    simp only [mPat2] at h
    by_cases hc : c1 = '{' ∧ c2 = '{'
    · rw [if_pos hc] at h
      cases hw : matchPat (compileRep rep) rest with
      | none => rw [hw] at h; exact absurd h (by simp)
      | some s1 =>
        rw [hw] at h
        have h' : (if s1.take 1 = ['['] then
            (if ((s1.drop 1).drop (takeDigits (s1.drop 1)).length).take 1 = [']'] then
              some (('{' :: '{' :: rep ++ '[' :: (toString idx).data ++ [']'] : List Char),
                    ((s1.drop 1).drop (takeDigits (s1.drop 1)).length).drop 1)
            else none)
          else none) = some (out, rem) := h
        by_cases ht : s1.take 1 = ['[']
        · rw [if_pos ht] at h'
          by_cases hd : ((s1.drop 1).drop (takeDigits (s1.drop 1)).length).take 1 = [']']
          · rw [if_pos hd] at h'
            simp only [Option.some.injEq, Prod.mk.injEq] at h'
            have := h'.2
            subst this
            have hlen := matchPat_length (compileRep rep) rest s1 hw
            have h1 := lenDropLe 1 s1
            have h2 := lenDropLe (takeDigits (s1.drop 1)).length (s1.drop 1)
            have h3 := lenDropLe 1 ((s1.drop 1).drop (takeDigits (s1.drop 1)).length)
            simp only [List.length_cons]
            omega
          · rw [if_neg hd] at h'; exact absurd h' (by simp)
        · rw [if_neg ht] at h'; exact absurd h' (by simp)
    · rw [if_neg hc] at h; exact absurd h (by simp)

/-- The bracket matcher fires on `[digits]`. -/
theorem mBracketDigits_fire (ds q : List Char) (hne : ds ≠ []) (hdig : ∀ c ∈ ds, c.isDigit) :
    mBracketDigits ('[' :: (ds ++ ']' :: q)) = some ('.' :: ds, q) := by
  simp only [mBracketDigits, if_pos rfl]
  rw [takeDigits_append ds ']' q hdig (by decide), List.drop_left]
  simp [hne]

/-- The bracket matcher needs a leading `[`. -/
theorem mBracketDigits_none {c : Char} (h : c ≠ '[') (t : List Char) :
    mBracketDigits (c :: t) = none := by
  simp [mBracketDigits, h]

/-- A region without `[` never starts a bracket match. -/
theorem mBracketDigits_pass {l : List Char} (hl : ∀ c ∈ l, c ≠ '[') :
    ∀ (x s' : List Char), s' ≠ [] → s' <:+ l → mBracketDigits (s' ++ x) = none := by
  intro x s' h1 h2
  cases s' with
  | nil => exact absurd rfl h1
  | cons c t => exact mBracketDigits_none (hl c (h2.subset (by simp))) _

/-- Normalizing `p[ds]q` and `p.dsq` gives the same string when `p` has no
`[` and `ds` is a non-empty digit run: both become `p.ds` followed by the
normalization of `q`. -/
theorem bracketToDot_split (p q : String) (ds : List Char) (hp : ∀ c ∈ p.data, c ≠ '[')
    (hne : ds ≠ []) (hdig : ∀ c ∈ ds, c.isDigit) :
    jsReplaceG mBracketDigits (p ++ "[" ++ String.mk ds ++ "]" ++ q)
      = jsReplaceG mBracketDigits (p ++ "." ++ String.mk ds ++ q) := by
  have hdsb : ∀ c ∈ ds, c ≠ '[' := by
    intro c hc he
    have := hdig c hc
    rw [he] at this
    exact absurd this (by decide)
  unfold jsReplaceG
  have hd1 : (p ++ "[" ++ String.mk ds ++ "]" ++ q).data = p.data ++ ('[' :: (ds ++ ']' :: q.data)) := by
    simp [String.data_append]
  have hd2 : (p ++ "." ++ String.mk ds ++ q).data = (p.data ++ '.' :: ds) ++ q.data := by
    simp [String.data_append]
  rw [hd1, hd2]
  have hl1 : (p.data ++ ('[' :: (ds ++ ']' :: q.data))).length
      = p.data.length + (ds.length + q.data.length + 2) := by
    simp; omega
  have hl2 : ((p.data ++ '.' :: ds) ++ q.data).length
      = (p.data ++ '.' :: ds).length + q.data.length := by
    simp; omega
  rw [hl1, hl2]
  rw [scanRF_pass p.data (ds.length + q.data.length + 2) _ (fun s' h1 h2 =>
    mBracketDigits_pass hp _ s' h1 h2)]
  rw [scanRF_pass (p.data ++ '.' :: ds) q.data.length q.data (fun s' h1 h2 =>
    (by
      cases s' with
      | nil => exact absurd rfl h1
      | cons c t =>
        refine mBracketDigits_none ?_ _
        have hc : c ∈ p.data ++ '.' :: ds := h2.subset (by simp)
        rcases List.mem_append.mp hc with h | h
        · exact hp c h
        · rcases List.mem_cons.mp h with h | h
          · rw [h]; decide
          · exact hdsb c h))]
  have hstep : ds.length + q.data.length + 2 = (ds.length + q.data.length + 1) + 1 := by omega
  rw [hstep, scanRF_head (mBracketDigits_fire ds q.data hne hdig)]
  rw [scanRF_fuel mBracketDigits_ok (ds.length + q.data.length + 1) q.data.length q.data
    (by omega) (by omega)]
  simp

/-- Claim C7 core: resolving `p[ds]q` equals resolving `p.dsq` for a
bracketless prefix `p` and a non-empty digit run `ds`. -/
theorem getValueByPath_bracket_eq (obj : Json) (p q : String) (ds : List Char)
    (hp : ∀ c ∈ p.data, c ≠ '[') (hne : ds ≠ []) (hdig : ∀ c ∈ ds, c.isDigit) :
    ASTR.getValueByPath obj (p ++ "[" ++ String.mk ds ++ "]" ++ q)
      = ASTR.getValueByPath obj (p ++ "." ++ String.mk ds ++ q) := by
  have h1 : (p ++ "[" ++ String.mk ds ++ "]" ++ q) ≠ "" := by
    intro h
    have := congrArg String.data h
    simp [String.data_append] at this
  have h2 : (p ++ "." ++ String.mk ds ++ q) ≠ "" := by
    intro h
    have := congrArg String.data h
    simp [String.data_append] at this
  by_cases hobj : jsFalsy obj
  · simp [ASTR.getValueByPath, hobj]
  · simp only [ASTR.getValueByPath, hobj, h1, h2, Bool.false_or, decide_eq_true_eq,
      if_neg h1, if_neg h2]
    rw [bracketToDot_split p q ds hp hne hdig]

/-- One head match determines the replacement output. -/
theorem jsReplaceG_head {m : List Char → Option (List Char × List Char)} (hm : MatcherOK m)
    {c : Char} {rest out rem : List Char} (h : m (c :: rest) = some (out, rem)) :
    jsReplaceG m (String.mk (c :: rest)) = String.mk (out ++ scanRF m rem.length rem) := by
  unfold jsReplaceG
  have hlt := hm _ _ _ h
  simp only [List.length_cons] at hlt ⊢
  rw [scanRF_head h rest.length,
    scanRF_fuel hm rest.length rem.length rem (by omega) (by omega)]

/-- A matchless prefix passes through the replacement verbatim. -/
theorem jsReplaceG_pass {m : List Char → Option (List Char × List Char)}
    (p x : List Char) (hpass : ∀ s', s' ≠ [] → s' <:+ p → m (s' ++ x) = none) :
    jsReplaceG m (String.mk (p ++ x)) = String.mk (p ++ scanRF m x.length x) := by
  unfold jsReplaceG
  have : (p ++ x).length = p.length + x.length := by simp
  rw [this, scanRF_pass p x.length x hpass]

/-- `\{\{rep\[\]` fires on `{{rep[]…` for a plain (bracketless) path. -/
theorem mPat1_fire (R : List Char) (i : Nat) (X : List Char)
    (hplain : ∀ c ∈ R, plainRepChar c = true) :
    mPat1 R i ('{' :: '{' :: (R ++ '[' :: ']' :: X))
      = some ('{' :: '{' :: R ++ '[' :: (toString i).data ++ [']'], X) := by
  have hm := matchPat_refl_plain R ('[' :: ']' :: X) hplain
  simp [mPat1, hm]

/-- `\{\{rep\[\]` cannot fire when the first character is not `{`. -/
theorem mPat1_none_head1 (R : List Char) (i : Nat) {c : Char} (hc : c ≠ '{') :
    ∀ t, mPat1 R i (c :: t) = none := by
  intro t
  cases t with
  | nil => rfl
  | cons c2 t' => simp [mPat1, hc]

/-- `\{\{rep\[\]` cannot fire when the second character is not `{`. -/
theorem mPat1_none_head2 (R : List Char) (i : Nat) (c1 : Char) {c2 : Char} (hc : c2 ≠ '{')
    (t : List Char) : mPat1 R i (c1 :: c2 :: t) = none := by
  simp [mPat1, hc]

/-- `\{\{rep\[\]` cannot fire on `{{rep[d…` when `d` is a digit and the
path is plain. -/
theorem mPat1_none_digit (R : List Char) (i : Nat) {d : Char} (hd : d.isDigit)
    (hplain : ∀ c ∈ R, plainRepChar c = true)
    (t : List Char) : mPat1 R i ('{' :: '{' :: (R ++ '[' :: d :: t)) = none := by
  have hne : d ≠ ']' := by
    intro h; rw [h] at hd; exact absurd hd (by decide)
  have hm := matchPat_refl_plain R ('[' :: d :: t) hplain
  simp [mPat1, hm, hne]

/-- `\{\{rep\[\d*\]` fires on `{{rep[ds]…` for a digit run `ds`. -/
theorem mPat2_fire (R : List Char) (i : Nat) (ds X : List Char) (hdig : ∀ c ∈ ds, c.isDigit)
    (hplain : ∀ c ∈ R, plainRepChar c = true) :
    mPat2 R i ('{' :: '{' :: (R ++ '[' :: (ds ++ ']' :: X)))
      = some ('{' :: '{' :: R ++ '[' :: (toString i).data ++ [']'], X) := by
  have h1 : takeDigits (ds ++ ']' :: X) = ds := takeDigits_append ds ']' X hdig (by decide)
  have hm := matchPat_refl_plain R ('[' :: (ds ++ ']' :: X)) hplain
  simp [mPat2, hm, h1, List.drop_left]

/-- The anchored `^rep\[\d*\]` fires on `rep[ds]…` for a digit run. -/
theorem matchAnchoredIdx_fire (R ds X : List Char) (hdig : ∀ c ∈ ds, c.isDigit)
    (hplain : ∀ c ∈ R, plainRepChar c = true) :
    matchAnchoredIdx R (R ++ '[' :: (ds ++ ']' :: X)) = some X := by
  have h1 : takeDigits (ds ++ ']' :: X) = ds := takeDigits_append ds ']' X hdig (by decide)
  have hm := matchPat_refl_plain R ('[' :: (ds ++ ']' :: X)) hplain
  simp [matchAnchoredIdx, hm, h1, List.drop_left]

/-- A decimal digit is not `{`, `[`, `]` or `.`. -/
theorem isDigit_ne (c : Char) (hd : c.isDigit) : c ≠ '{' ∧ c ≠ '[' ∧ c ≠ ']' ∧ c ≠ '.' := by
  refine ⟨?_, ?_, ?_, ?_⟩ <;> intro h <;> rw [h] at hd <;> exact absurd hd (by decide)

/-- Claim C8 core (empty-bracket form): the `updateNodePaths` content
rewriting pins `{{rep[]` to `{{rep[i]` and continues with the rewriting of
the remainder, for a repeat path over the plain path alphabet (identifier
characters and dots) — the paths on which the interpolated regexp is
literal. -/
theorem rewritePat_pin_empty (rep : String) (i : Nat) (rest : String)
    (hplain : ∀ c ∈ rep.data, plainRepChar c = true) :
    ASTR.rewritePat rep i ("\x7b\x7b" ++ rep ++ "[]" ++ rest)
      = "\x7b\x7b" ++ rep ++ "[" ++ toString i ++ "]" ++ ASTR.rewritePat rep i rest := by
  have hS1 : ("\x7b\x7b" ++ rep ++ "[]" ++ rest)
      = String.mk ('{' :: '{' :: (rep.data ++ '[' :: ']' :: rest.data)) := by
    apply String.ext
    simp [String.data_append]
  have hp1 : jsReplaceG (mPat1 rep.data i)
        (String.mk ('{' :: '{' :: (rep.data ++ '[' :: ']' :: rest.data)))
      = String.mk (('{' :: '{' :: rep.data ++ '[' :: (toString i).data ++ [']'])
          ++ scanRF (mPat1 rep.data i) rest.data.length rest.data) :=
    jsReplaceG_head (mPat1_ok _ _) (mPat1_fire rep.data i rest.data hplain)
  have hrearr : (('{' :: '{' :: rep.data ++ '[' :: (toString i).data ++ [']'])
        ++ scanRF (mPat1 rep.data i) rest.data.length rest.data)
      = '{' :: '{' :: (rep.data ++ '[' :: ((toString i).data
          ++ ']' :: scanRF (mPat1 rep.data i) rest.data.length rest.data)) := by
    simp
  have hp2 : jsReplaceG (mPat2 rep.data i)
        (String.mk ('{' :: '{' :: (rep.data ++ '[' :: ((toString i).data
          ++ ']' :: scanRF (mPat1 rep.data i) rest.data.length rest.data))))
      = String.mk (('{' :: '{' :: rep.data ++ '[' :: (toString i).data ++ [']'])
          ++ scanRF (mPat2 rep.data i)
              (scanRF (mPat1 rep.data i) rest.data.length rest.data).length
              (scanRF (mPat1 rep.data i) rest.data.length rest.data)) :=
    jsReplaceG_head (mPat2_ok _ _)
      (mPat2_fire rep.data i (toString i).data _ (natToString_digits i) hplain)
  have hRHS : ("\x7b\x7b" ++ rep ++ "[" ++ toString i ++ "]" ++ ASTR.rewritePat rep i rest)
      = String.mk (('{' :: '{' :: rep.data ++ '[' :: (toString i).data ++ [']'])
          ++ scanRF (mPat2 rep.data i)
              (scanRF (mPat1 rep.data i) rest.data.length rest.data).length
              (scanRF (mPat1 rep.data i) rest.data.length rest.data)) := by
    apply String.ext
    simp [ASTR.rewritePat, jsReplaceG, String.data_append]
  rw [ASTR.rewritePat, hS1, hp1, hRHS]
  rw [show (String.mk (('{' :: '{' :: rep.data ++ '[' :: (toString i).data ++ [']'])
        ++ scanRF (mPat1 rep.data i) rest.data.length rest.data))
      = String.mk ('{' :: '{' :: (rep.data ++ '[' :: ((toString i).data
          ++ ']' :: scanRF (mPat1 rep.data i) rest.data.length rest.data)))
    from congrArg String.mk hrearr]
  exact hp2

/-- Claim C8 core (indexed form): the content rewriting re-pins
`{{rep[N]` to `{{rep[i]` for every iteration index `N`, for a repeat path
over the plain path alphabet. -/
theorem rewritePat_pin_idx (rep : String) (i N : Nat) (rest : String)
    (hplain : ∀ c ∈ rep.data, plainRepChar c = true) :
    ASTR.rewritePat rep i ("\x7b\x7b" ++ rep ++ "[" ++ toString N ++ "]" ++ rest)
      = "\x7b\x7b" ++ rep ++ "[" ++ toString i ++ "]" ++ ASTR.rewritePat rep i rest := by
  have hDN := natToString_digits N
  have hDNne := natToString_ne_nil N
  have hbr : ∀ c ∈ rep.data, c ≠ '{' := fun c hc => (plainRepChar_ne (hplain c hc)).2
  have hS1 : ("\x7b\x7b" ++ rep ++ "[" ++ toString N ++ "]" ++ rest)
      = String.mk (('{' :: '{' :: (rep.data ++ ('[' :: ((toString N).data ++ [']'])))) ++ rest.data) := by
    apply String.ext
    simp [String.data_append]
  have hall : ∀ c ∈ rep.data ++ ('[' :: ((toString N).data ++ [']'])), c ≠ '{' := by
    intro c hc
    rcases List.mem_append.mp hc with h | h
    · exact hbr c h
    · rcases List.mem_cons.mp h with h | h
      · rw [h]; decide
      · rcases List.mem_append.mp h with h | h
        · exact (isDigit_ne c (hDN c h)).1
        · simp at h; rw [h]; decide
  have hpass : ∀ s', s' ≠ [] →
      s' <:+ ('{' :: '{' :: (rep.data ++ ('[' :: ((toString N).data ++ [']'])))) →
      mPat1 rep.data i (s' ++ rest.data) = none := by
    intro s' hne hsfx
    rcases List.suffix_cons_iff.mp hsfx with h | h
    · subst h
      obtain ⟨d, DN', hD⟩ : ∃ d DN', (toString N).data = d :: DN' := by
        cases hD : (toString N).data with
        | nil => exact absurd hD hDNne
        | cons d DN' => exact ⟨d, DN', rfl⟩
      have hd : d.isDigit := hDN d (by rw [hD]; simp)
      have hshape : ('{' :: '{' :: (rep.data ++ ('[' :: ((toString N).data ++ [']'])))) ++ rest.data
          = '{' :: '{' :: (rep.data ++ ('[' :: d :: (DN' ++ (']' :: rest.data)))) := by
        rw [hD]; simp
      rw [hshape]
      exact mPat1_none_digit rep.data i hd hplain _
    · rcases List.suffix_cons_iff.mp h with h | h
      · subst h
        obtain ⟨a, t, ha, hmem⟩ :
            ∃ a t, (rep.data ++ ('[' :: ((toString N).data ++ [']']))) ++ rest.data = a :: t ∧ a ≠ '{' := by
          cases hR : rep.data with
          | nil => exact ⟨'[', ((toString N).data ++ [']']) ++ rest.data, by simp, by decide⟩
          | cons r rs =>
            exact ⟨r, (rs ++ ('[' :: ((toString N).data ++ [']']))) ++ rest.data,
              by simp, hbr r (by rw [hR]; simp)⟩
        have : ('{' :: (rep.data ++ ('[' :: ((toString N).data ++ [']'])))) ++ rest.data
            = '{' :: (a :: t) := by
          rw [← ha]; simp
        rw [this]
        exact mPat1_none_head2 rep.data i '{' hmem t
      · cases s' with
        | nil => exact absurd rfl hne
        | cons c t =>
          have hc : c ∈ rep.data ++ ('[' :: ((toString N).data ++ [']'])) := h.subset (by simp)
          exact mPat1_none_head1 rep.data i (hall c hc) _
  have hp1 : jsReplaceG (mPat1 rep.data i)
        (String.mk (('{' :: '{' :: (rep.data ++ ('[' :: ((toString N).data ++ [']'])))) ++ rest.data))
      = String.mk (('{' :: '{' :: (rep.data ++ ('[' :: ((toString N).data ++ [']']))))
          ++ scanRF (mPat1 rep.data i) rest.data.length rest.data) :=
    jsReplaceG_pass _ _ hpass
  have hrearr : (('{' :: '{' :: (rep.data ++ ('[' :: ((toString N).data ++ [']']))))
        ++ scanRF (mPat1 rep.data i) rest.data.length rest.data)
      = '{' :: '{' :: (rep.data ++ '[' :: ((toString N).data
          ++ ']' :: scanRF (mPat1 rep.data i) rest.data.length rest.data)) := by
    simp
  have hp2 : jsReplaceG (mPat2 rep.data i)
        (String.mk ('{' :: '{' :: (rep.data ++ '[' :: ((toString N).data
          ++ ']' :: scanRF (mPat1 rep.data i) rest.data.length rest.data))))
      = String.mk (('{' :: '{' :: rep.data ++ '[' :: (toString i).data ++ [']'])
          ++ scanRF (mPat2 rep.data i)
              (scanRF (mPat1 rep.data i) rest.data.length rest.data).length
              (scanRF (mPat1 rep.data i) rest.data.length rest.data)) :=
    jsReplaceG_head (mPat2_ok _ _) (mPat2_fire rep.data i (toString N).data _ hDN hplain)
  have hRHS : ("\x7b\x7b" ++ rep ++ "[" ++ toString i ++ "]" ++ ASTR.rewritePat rep i rest)
      = String.mk (('{' :: '{' :: rep.data ++ '[' :: (toString i).data ++ [']'])
          ++ scanRF (mPat2 rep.data i)
              (scanRF (mPat1 rep.data i) rest.data.length rest.data).length
              (scanRF (mPat1 rep.data i) rest.data.length rest.data)) := by
    apply String.ext
    simp [ASTR.rewritePat, jsReplaceG, String.data_append]
  rw [ASTR.rewritePat, hS1, hp1, congrArg String.mk hrearr, hp2, hRHS]

/-- Claim C8 core (`data_path`): an anchored `rep[ds]` prefix is re-pinned
to `rep[i]`, keeping the remainder of the path, for a repeat path over the
plain path alphabet. -/
theorem rewriteDataPath_pin (rep : String) (i : Nat) (ds : List Char)
    (hdig : ∀ c ∈ ds, c.isDigit) (rest : String)
    (hplain : ∀ c ∈ rep.data, plainRepChar c = true) :
    ASTR.rewriteDataPath rep i (rep ++ "[" ++ String.mk ds ++ "]" ++ rest)
      = rep ++ "[" ++ toString i ++ "]" ++ rest := by
  unfold ASTR.rewriteDataPath
  have hdata : (rep ++ "[" ++ String.mk ds ++ "]" ++ rest).data
      = rep.data ++ '[' :: (ds ++ ']' :: rest.data) := by
    simp [String.data_append]
  rw [hdata, matchAnchoredIdx_fire rep.data ds rest.data hdig hplain]

mutual
/-- `updateNodePaths` preserves the tree shape. -/
theorem updateNodePaths_shape : ∀ (n : ASTNode) (rep : String) (i : Nat),
    nodeShape (ASTR.updateNodePaths n rep i) = nodeShape n
  | ⟨_, _, _, _, _, _, dp, ch, _, _, _⟩, rep, i => by
    cases dp <;>
      simp [ASTR.updateNodePaths, nodeShape, updateNodePathsL_shape ch rep i]
/-- `updateNodePaths` preserves the shapes of a child list. -/
theorem updateNodePathsL_shape : ∀ (l : List ASTNode) (rep : String) (i : Nat),
    nodeShapeL (ASTR.updateNodePathsL l rep i) = nodeShapeL l
  | [], _, _ => rfl
  | c :: cs, rep, i => by
    simp [ASTR.updateNodePathsL, nodeShapeL, updateNodePaths_shape c rep i,
      updateNodePathsL_shape cs rep i]
end

/-- `updateNodePaths` only touches `content`, `data_path` and `children`. -/
theorem updateNodePaths_fields (n : ASTNode) (rep : String) (i : Nat) :
    (ASTR.updateNodePaths n rep i).id = n.id ∧
    (ASTR.updateNodePaths n rep i).«repeat» = n.«repeat» ∧
    (ASTR.updateNodePaths n rep i).tag = n.tag ∧
    (ASTR.updateNodePaths n rep i).content = n.content.map (ASTR.rewritePat rep i) ∧
    (ASTR.updateNodePaths n rep i).children = ASTR.updateNodePathsL n.children rep i := by
  obtain ⟨_, _, _, _, _, co, dp, ch, _, _, _⟩ := n
  cases dp <;> cases co <;> simp [ASTR.updateNodePaths]

/-- `updateNodePaths` rewrites a `data_path` that starts with `rep[`. -/
theorem updateNodePaths_dataPath (n : ASTNode) (rep : String) (i : Nat) (dp : String)
    (hdp : n.data_path = some dp) (hpre : jsStartsWith dp (rep ++ "[")) :
    (ASTR.updateNodePaths n rep i).data_path = some (ASTR.rewriteDataPath rep i dp) := by
  obtain ⟨_, _, _, _, _, co, dp', ch, _, _, _⟩ := n
  simp only at hdp
  subst hdp
  simp [ASTR.updateNodePaths, hpre]

/-- The mapped-children equation of `updateNodePathsL`. -/
theorem updateNodePathsL_map (l : List ASTNode) (rep : String) (i : Nat) :
    ASTR.updateNodePathsL l rep i = l.map (fun c => ASTR.updateNodePaths c rep i) := by
  induction l with
  | nil => rfl
  | cons c cs ih => simp [ASTR.updateNodePathsL, ih]

/-- A string of the form `rep ++ "[" ++ z` starts with `rep ++ "["`. -/
theorem jsStartsWith_append (a z : String) : jsStartsWith (a ++ z) a = true := by
  unfold jsStartsWith
  rw [String.data_append]
  induction a.data with
  | nil => simp [List.isPrefixOf]
  | cons c cs ih => simp [List.isPrefixOf, ih]

/-- The two `getValueByPath` walk loops (ASTRenderer and Editor) agree. -/
theorem gvWalk_eq : ∀ (parts : List String) (cur : Option Json),
    ASTR.gvWalk parts cur = Editor.gvWalk parts cur := by
  intro parts
  induction parts with
  | nil => intro cur; rfl
  | cons part rest ih =>
    intro cur
    cases cur with
    | none => rfl
    | some j =>
      cases j with
      | null => rfl
      | bool b => rfl
      | num n => rfl
      | str s => rfl
      | arr xs =>
        simp only [ASTR.gvWalk, Editor.gvWalk]
        cases jsParseInt part <;> simp [ih]
      | obj fields =>
        simp only [ASTR.gvWalk, Editor.gvWalk]
        exact ih _

/-- The two `getValueByPath` implementations agree. -/
theorem getValueByPath_eq (obj : Json) (path : String) :
    ASTR.getValueByPath obj path = Editor.getValueByPath obj path := by
  unfold ASTR.getValueByPath Editor.getValueByPath
  split
  · rfl
  · exact gvWalk_eq _ _

/-- The two `normalizeType` implementations agree. -/
theorem normalizeType_eq (t : String) : ASTR.normalizeType t = Editor.normalizeType t := rfl

/-- Mustache matchers with pointwise-equal resolvers agree. -/
theorem mMustache_congr {f g : String → String} (h : ∀ x, f x = g x) (s : List Char) :
    mMustache f s = mMustache g s := by
  match s with
  | [] => rfl
  | [c] => rfl
  | c1 :: c2 :: rest => simp only [mMustache, h]

/-- Outside a repeat context both per-placeholder resolvers reduce to the
global path resolution, which agrees across the two files. -/
theorem resolveVar_eq_noRepeat (data : ResumeData) (p : String) :
    ASTR.resolveVar data none p = Editor.resolveVar data none p := by
  simp [ASTR.resolveVar, Editor.resolveVar, getValueByPath_eq]

/-- Outside a repeat context the two interpolators agree. -/
theorem resolveContent_eq_noRepeat (content : Option String) (data : ResumeData)
    (ix : Option Nat) :
    ASTR.resolveContent content data none ix = Editor.resolveContent content data none := by
  cases content with
  | none => rfl
  | some s =>
    unfold ASTR.resolveContent Editor.resolveContent jsReplaceG
    exact congrArg String.mk
      (scanRF_congr (mMustache_congr (resolveVar_eq_noRepeat data)) _ _)

/-- Joining a two-element list. -/
theorem intercalate_pair (sep a b : String) : String.intercalate sep [a, b] = a ++ sep ++ b := by
  simp [String.intercalate, String.intercalate.go]

/-! ## Claim theorems -/

/-- C7: path resolution treats a bracket-index segment and a dot-separated
numeric segment equivalently — for a bracketless prefix `p` and a decimal
index written as the digit run `ds`, resolving `p[ds]q` equals resolving
`p.dsq`; in particular `resolve({a:{b:[10,20]}}, "a.b[1]") = 20`,
`resolve({a:{b:[10,20]}}, "a.b.1") = 20`, and `resolve({}, "x.y")` is the
empty-string sentinel (no exception can occur: the resolver is a total
function). -/
theorem claim_C7 :
    (∀ (obj : Json) (p q : String) (ds : List Char),
        (∀ c ∈ p.data, c ≠ '[') → ds ≠ [] → (∀ c ∈ ds, c.isDigit) →
        ASTR.getValueByPath obj (p ++ "[" ++ String.mk ds ++ "]" ++ q)
          = ASTR.getValueByPath obj (p ++ "." ++ String.mk ds ++ q))
    ∧ ASTR.getValueByPath exPathObj "a.b[1]" = some (Json.num 20)
    ∧ ASTR.getValueByPath exPathObj "a.b.1" = some (Json.num 20)
    ∧ ASTR.getValueByPath (Json.obj []) "x.y" = some (Json.str "") :=
  ⟨getValueByPath_bracket_eq, rfl, rfl, rfl⟩

/-- C7 witness: the equivalence applied at `obj = {a:{b:[10,20]}}`,
`p = "a.b"`, `ds = "1"`, `q = ""`. -/
theorem claim_C7_witness :
    ASTR.getValueByPath exPathObj ("a.b" ++ "[" ++ String.mk ['1'] ++ "]" ++ "")
      = ASTR.getValueByPath exPathObj ("a.b" ++ "." ++ String.mk ['1'] ++ "") :=
  claim_C7.1 exPathObj "a.b" "" ['1'] (by decide) (by decide) (by decide)

/-- C8 (amended): the repeat expansion renders, for each `(item, index)`,
the clone `expandClone node rep index`; that clone has its repeat directive
cleared and its id suffixed `-index`, preserves the tree shape, and
rewrites contents (and recursively all descendants' contents) with the two
pinning replaces.  For a repeat path over the plain path alphabet
(identifier characters and dots — the paths on which the interpolated
`RegExp` is literal), `{{rep[]` and `{{rep[N]` placeholders are pinned to
`{{rep[index]` and a `data_path` beginning with `rep[` is rewritten
likewise; a repeat path that itself contains a bracket index does not
qualify, because interpolation turns its bracket into a character class
and the replaces match nothing (see the counterexample). -/
theorem claim_C8 :
    (∀ (fuel : Nat) (node : ASTNode) (data : ResumeData) (ri : Option Json) (ix : Option Nat)
        (items : List Json),
        strTruthy node.«repeat» = true →
        ASTR.astRepeatData (node.«repeat».getD "") data = some items →
        0 < items.length →
        ASTR.renderNode (fuel + 1) node data ri ix
          = items.enum.flatMap (fun p =>
              ASTR.renderNode fuel (ASTR.expandClone node (node.«repeat».getD "") p.1)
                data (some p.2) (some p.1)))
    ∧ (∀ (node : ASTNode) (rep : String) (i : Nat),
        (ASTR.expandClone node rep i).«repeat» = none
        ∧ (ASTR.expandClone node rep i).id = node.id ++ "-" ++ toString i
        ∧ nodeShape (ASTR.expandClone node rep i) = nodeShape node)
    ∧ (∀ (n : ASTNode) (rep : String) (i : Nat),
        (ASTR.updateNodePaths n rep i).content = n.content.map (ASTR.rewritePat rep i)
        ∧ (ASTR.updateNodePaths n rep i).children
            = n.children.map (fun c => ASTR.updateNodePaths c rep i)
        ∧ nodeShape (ASTR.updateNodePaths n rep i) = nodeShape n)
    ∧ (∀ (rep : String) (i : Nat) (rest : String),
        (∀ c ∈ rep.data, plainRepChar c = true) →
        ASTR.rewritePat rep i ("\x7b\x7b" ++ rep ++ "[]" ++ rest)
          = "\x7b\x7b" ++ rep ++ "[" ++ toString i ++ "]" ++ ASTR.rewritePat rep i rest)
    ∧ (∀ (rep : String) (i N : Nat) (rest : String),
        (∀ c ∈ rep.data, plainRepChar c = true) →
        ASTR.rewritePat rep i ("\x7b\x7b" ++ rep ++ "[" ++ toString N ++ "]" ++ rest)
          = "\x7b\x7b" ++ rep ++ "[" ++ toString i ++ "]" ++ ASTR.rewritePat rep i rest)
    ∧ (∀ (n : ASTNode) (rep : String) (i : Nat) (ds : List Char) (rest : String),
        (∀ c ∈ ds, c.isDigit) →
        (∀ c ∈ rep.data, plainRepChar c = true) →
        n.data_path = some ((rep ++ "[") ++ (String.mk ds ++ "]" ++ rest)) →
        (ASTR.updateNodePaths n rep i).data_path
          = some (rep ++ "[" ++ toString i ++ "]" ++ rest)) := by
  refine ⟨?_, ?_, ?_, ?_, ?_, ?_⟩
  · intro fuel node data ri ix items h1 h2 h3
    simp [ASTR.renderNode, h1, h2, h3]
  · intro node rep i
    have hf := updateNodePaths_fields
      { node with id := node.id ++ "-" ++ toString i, «repeat» := none } rep i
    refine ⟨by rw [ASTR.expandClone, hf.2.1], by rw [ASTR.expandClone, hf.1], ?_⟩
    rw [ASTR.expandClone, updateNodePaths_shape]
    obtain ⟨_, _, _, _, _, _, _, _, _, _, _⟩ := node
    rfl
  · intro n rep i
    have hf := updateNodePaths_fields n rep i
    exact ⟨hf.2.2.2.1, by rw [hf.2.2.2.2, updateNodePathsL_map], updateNodePaths_shape n rep i⟩
  · exact rewritePat_pin_empty
  · exact rewritePat_pin_idx
  · intro n rep i ds rest hdig hplain hdp
    have hpre : jsStartsWith ((rep ++ "[") ++ (String.mk ds ++ "]" ++ rest)) (rep ++ "[") = true :=
      jsStartsWith_append (rep ++ "[") (String.mk ds ++ "]" ++ rest)
    rw [updateNodePaths_dataPath n rep i _ hdp hpre]
    have hassoc : (rep ++ "[") ++ (String.mk ds ++ "]" ++ rest)
        = rep ++ "[" ++ String.mk ds ++ "]" ++ rest := by
      apply String.ext
      simp [String.data_append]
    rw [hassoc, rewriteDataPath_pin rep i ds hdig rest hplain]

/-- C8 witness: the pinning applied at `rep = "sections.skill"`, current
index 2, over the placeholder `{{sections.skill[0].t}}`. -/
theorem claim_C8_witness :
    ASTR.rewritePat "sections.skill" 2
        ("\x7b\x7b" ++ "sections.skill" ++ "[" ++ toString 0 ++ "]" ++ ".t\x7d\x7d")
      = "\x7b\x7b" ++ "sections.skill" ++ "[" ++ toString 2 ++ "]"
        ++ ASTR.rewritePat "sections.skill" 2 ".t\x7d\x7d" :=
  claim_C8.2.2.2.2.1 "sections.skill" 2 0 ".t\x7d\x7d" (by decide)

/-- C8 counterexample: with the bracket-bearing repeat path
`profile.items[0].x` — for which the expansion does yield the pair
`(1, 0)` — the clone's `{{profile.items[0].x[]}}` placeholder is not
pinned to the index: interpolating the path into the rewriting `RegExp`
turns its `[0]` into a character class matching the single character `0`,
so neither replace matches the literal bracket of the placeholder and the
content survives unchanged, contradicting the claim's "every
`{{<repeatPath>[]...}}` placeholder is rewritten". -/
theorem claim_C8_counterexample :
    ASTR.astRepeatData "profile.items[0].x" exBracketData = some [Json.num 1]
    ∧ (ASTR.expandClone exBracketRepNode "profile.items[0].x" 0).content
        = some "{{profile.items[0].x[]}}"
    ∧ ("{{profile.items[0].x[]}}" : String)
        ≠ "\x7b\x7bprofile.items[0].x[" ++ toString 0 ++ "]\x7d\x7d" :=
  ⟨rfl, by decide, by decide⟩

/-- C6 counterexample: with root `{}` and path `"x"`, the single segment
names nothing, yet the resolver returns `undefined` (`none`), not the
empty-string sentinel the claim requires for every failing step. -/
theorem claim_C6_counterexample :
    ASTR.getValueByPath (Json.obj []) "x" = none
    ∧ (none : Option Json) ≠ some (Json.str "") :=
  ⟨rfl, by simp⟩

/-- C6 amended: resolution never throws (the resolver is a total
function); a step that finds the current value `null`/absent or
non-composite returns the empty-string sentinel, and a missed
intermediate segment is caught as absent at the next step; but a missed
final segment returns the absent value (`undefined`) rather than the
sentinel, while a found final segment returns the stored value. -/
theorem claim_C6 :
    (∀ (p : String) (ps : List String), ASTR.gvWalk (p :: ps) none = some (Json.str ""))
    ∧ (∀ (p : String) (ps : List String) (j : Json), j = Json.null ∨ jsComposite j = false →
        ASTR.gvWalk (p :: ps) (some j) = some (Json.str ""))
    ∧ (∀ (fields : List (String × Json)) (k : String),
        fields.find? (fun q => q.1 == k) = none →
        ASTR.gvWalk [k] (some (Json.obj fields)) = none)
    ∧ (∀ (fields : List (String × Json)) (k : String) (v : String × Json),
        fields.find? (fun q => q.1 == k) = some v →
        ASTR.gvWalk [k] (some (Json.obj fields)) = some v.2) := by
  refine ⟨?_, ?_, ?_, ?_⟩
  · intro p ps; rfl
  · intro p ps j h
    rcases h with h | h
    · subst h; rfl
    · cases j <;> first | rfl | simp [jsComposite] at h
  · intro fields k h
    simp [ASTR.gvWalk, jsGetProp, h]
  · intro fields k v h
    simp [ASTR.gvWalk, jsGetProp, h]

/-- C6 witness: the sentinel behavior at a non-composite current value and
the hit/miss behavior at concrete objects. -/
theorem claim_C6_witness :
    ASTR.gvWalk ["y"] (some (Json.str "s")) = some (Json.str "")
    ∧ ASTR.gvWalk ["k"] (some (Json.obj [])) = none
    ∧ ASTR.gvWalk ["k"] (some (Json.obj [("k", Json.num 7)])) = some (Json.num 7) :=
  ⟨claim_C6.2.1 "y" [] (Json.str "s") (Or.inr rfl),
   claim_C6.2.2.1 [] "k" rfl,
   claim_C6.2.2.2 [("k", Json.num 7)] "k" ("k", Json.num 7) rfl⟩

/-- Joining a one-element list. -/
theorem intercalate_single (sep a : String) : String.intercalate sep [a] = a := rfl

/-- C9: the export renderer is a pure function of `(node, data)` — two
renders of the same input are the same string — and the attribute order is
fixed: the class attribute is emitted before the style attribute whenever
both are present. -/
theorem claim_C9 :
    (∀ (fuel : Nat) (node : ASTNode) (data : ResumeData) (ri : Option Json),
        Editor.astToHtml fuel node data ri = Editor.astToHtml fuel node data ri)
    ∧ (∀ (node : ASTNode) (c : String), node.class_name = some c → c ≠ "" →
        Editor.convertStylesToCSS node.styles ≠ "" →
        Editor.buildAttrs node
          = " class=\"" ++ c ++ "\"" ++ " " ++ "style=\"" ++ Editor.convertStylesToCSS node.styles ++ "\"")
    ∧ (∀ (node : ASTNode) (c : String), node.class_name = some c → c ≠ "" →
        Editor.convertStylesToCSS node.styles = "" →
        Editor.buildAttrs node = " class=\"" ++ c ++ "\"") := by
  refine ⟨fun _ _ _ _ => rfl, ?_, ?_⟩
  · intro node c hc hne hstyle
    simp only [Editor.buildAttrs, hc, strTruthy, hne, hstyle, Option.getD_some]
    have hclass : (if decide (c ≠ "") = true then ["class=\"" ++ c ++ "\""] else ([] : List String))
        = ["class=\"" ++ c ++ "\""] := by simp [hne]
    have hsty : (if Editor.convertStylesToCSS node.styles ≠ "" then
          ["style=\"" ++ Editor.convertStylesToCSS node.styles ++ "\""] else ([] : List String))
        = ["style=\"" ++ Editor.convertStylesToCSS node.styles ++ "\""] := by simp [hstyle]
    rw [hclass, hsty, List.singleton_append, if_pos (by simp), intercalate_pair]
    apply String.ext
    simp [String.data_append]
  · intro node c hc hne hstyle
    simp only [Editor.buildAttrs, hc, strTruthy, hne, hstyle, Option.getD_some]
    have hclass : (if decide (c ≠ "") = true then ["class=\"" ++ c ++ "\""] else ([] : List String))
        = ["class=\"" ++ c ++ "\""] := by simp [hne]
    have hsty : (if ("" : String) ≠ "" then ["style=\"" ++ "" ++ "\""] else ([] : List String))
        = [] := by simp
    rw [hclass, hsty, List.append_nil, if_pos (by simp), intercalate_single]
    apply String.ext
    simp [String.data_append]

/-- C9 witness: the attribute order applied at a concrete node with both a
class name and a style map. -/
theorem claim_C9_witness :
    Editor.buildAttrs
      { id := "n", type := "t", tag := "div", class_name := some "cls",
        styles := [("font_size", "12px")], children := [] }
      = " class=\"" ++ "cls" ++ "\"" ++ " " ++ "style=\""
        ++ Editor.convertStylesToCSS [("font_size", "12px")] ++ "\"" :=
  claim_C9.2.1
    { id := "n", type := "t", tag := "div", class_name := some "cls",
      styles := [("font_size", "12px")], children := [] } "cls"
    rfl (by decide) (by decide)

/-- C10: the export markup builder escapes nothing — for a non-void,
non-repeat node the output is exactly the tag, the raw attribute string,
the raw interpolated content, and the newline-joined children, inserted
character for character; at a concrete node whose class name and resolved
content contain `"`, `<`, `>` and `&`, those characters appear verbatim
(the raw quote terminates the class attribute early). -/
theorem claim_C10 :
    (∀ (fuel : Nat) (node : ASTNode) (data : ResumeData) (ri : Option Json),
        strTruthy node.«repeat» = false →
        VOID_ELEMENTS.contains (jsToLower (if node.tag = "" then "div" else node.tag)) = false →
        Editor.astToHtml (fuel + 1) node data ri
          = "<" ++ (if node.tag = "" then "div" else node.tag) ++ Editor.buildAttrs node ++ ">"
            ++ Editor.resolveContent node.content data ri
            ++ String.intercalate "\n" (node.children.map (fun c => Editor.astToHtml fuel c data ri))
            ++ "</" ++ (if node.tag = "" then "div" else node.tag) ++ ">")
    ∧ Editor.astToHtml 1 exQuoteNode exMarkupData none
        = "<div class=\"pre\"post\"><b>&\"</div>" := by
  refine ⟨?_, by decide⟩
  intro fuel node data ri h1 h2
  have h2m : jsToLower (if node.tag = "" then "div" else node.tag) ∉ VOID_ELEMENTS := by
    simpa using h2
  simp [Editor.astToHtml, h1, h2m]

/-- C10 witness: the characterization applied at the quote-bearing node. -/
theorem claim_C10_witness :
    Editor.astToHtml 1 exQuoteNode exMarkupData none
      = "<" ++ (if exQuoteNode.tag = "" then "div" else exQuoteNode.tag)
        ++ Editor.buildAttrs exQuoteNode ++ ">"
        ++ Editor.resolveContent exQuoteNode.content exMarkupData none
        ++ String.intercalate "\n"
            (exQuoteNode.children.map (fun c => Editor.astToHtml 0 c exMarkupData none))
        ++ "</" ++ (if exQuoteNode.tag = "" then "div" else exQuoteNode.tag) ++ ">" :=
  claim_C10.1 0 exQuoteNode exMarkupData none (by decide) (by decide)

/-- C5 counterexample: inside a repeat context a direct repeat-item hit of
a `null` value renders the literal string `"null"`, which the claim says
never appears (and is neither the empty string nor a join). -/
theorem claim_C5_counterexample :
    Editor.resolveContent (some "{{x}}") exData (some (Json.obj [("x", Json.null)])) = "null"
    ∧ ("null" : String) ≠ "" :=
  ⟨by decide, by decide⟩

/-- C5 amended: in the `item.`/`content.`/global branches a placeholder
renders the comma-space join for arrays, the empty string for every falsy
result (`undefined`, `null`, `0`, `false`, `""`), and the stringification
otherwise (so `interpolate("Hello {{missing.path}}", data) = "Hello "`
always holds, in both interpolators); but the direct repeat-item branch
stringifies without the falsy guard, so a `null` hit prints `"null"` and a
`0` hit prints `"0"`. -/
theorem claim_C5 :
    (∀ (data : ResumeData), Editor.resolveContent (some "Hello {{missing.path}}") data none = "Hello ")
    ∧ (∀ (data : ResumeData) (ix : Option Nat),
        ASTR.resolveContent (some "Hello {{missing.path}}") data none ix = "Hello ")
    ∧ (∀ (xs : List Json), renderValue (some (Json.arr xs)) = jsJoin ", " xs)
    ∧ (renderValue none = "" ∧ renderValue (some Json.null) = ""
        ∧ renderValue (some (Json.num 0)) = "" ∧ renderValue (some (Json.bool false)) = ""
        ∧ renderValue (some (Json.str "")) = "")
    ∧ (∀ (n : Int), n ≠ 0 → renderValue (some (Json.num n)) = toString n)
    ∧ (∀ (s : String), s ≠ "" → renderValue (some (Json.str s)) = s)
    ∧ (∀ (data : ResumeData),
        Editor.resolveContent (some "{{x}}") data (some (Json.obj [("x", Json.null)])) = "null")
    ∧ (∀ (data : ResumeData),
        Editor.resolveContent (some "{{x}}") data (some (Json.obj [("x", Json.num 0)])) = "0") := by
  refine ⟨fun data => rfl, fun data ix => rfl, fun xs => ?_, ⟨rfl, rfl, by decide, rfl, rfl⟩,
    ?_, ?_, fun data => rfl, fun data => rfl⟩
  · cases xs <;> rfl
  · intro n hn
    simp [renderValue, jsFalsy, jsToString, hn]
  · intro s hs
    simp [renderValue, jsFalsy, jsToString, hs]

/-- C5 witness: the guarded conjuncts applied at `7` and `"v"`. -/
theorem claim_C5_witness :
    renderValue (some (Json.num 7)) = toString (7 : Int)
    ∧ renderValue (some (Json.str "v")) = "v" :=
  ⟨claim_C5.2.2.2.2.1 7 (by decide), claim_C5.2.2.2.2.2.1 "v" (by decide)⟩

/-- C4 counterexample: with a repeat item bound, the interactive
interpolator resolves `{{section.content.title}}` through its extra
`section.` rule to `"A"`, while the four-step order (which the export
interpolator follows) yields `""`. -/
theorem claim_C4_counterexample :
    ASTR.resolveContent (some "{{section.content.title}}") exData (some exItem) none = "A"
    ∧ fourStepInterpolate (some "{{section.content.title}}") exData (some exItem) = ""
    ∧ Editor.resolveContent (some "{{section.content.title}}") exData (some exItem) = ""
    ∧ ("A" : String) ≠ "" :=
  ⟨by decide, by decide, by decide, by decide⟩

/-- C4 amended: the export interpolator resolves every placeholder by
exactly the four-step order (`item.` prefix, `content.` prefix, direct
repeat-item hit when neither the sentinel nor `undefined`, then global;
always global without a repeat item); the interactive interpolator applies
additional rules (`section.`, `sections[i].`, bare `type`/`id`) and so
deviates from that order. -/
theorem claim_C4 (content : Option String) (data : ResumeData) (ri : Option Json) :
    Editor.resolveContent content data ri = fourStepInterpolate content data ri := rfl

/-- C2 counterexample: a `repeat = "sections.project"` node over empty
sections renders nothing in export mode, but the interactive renderer
falls through and emits an ordinary element (with class, content and all),
so the two modes do not both produce zero output. -/
theorem claim_C2_counterexample :
    ASTR.renderNode 2 exEmptyRepeatNode ⟨Json.obj [], []⟩ none none
      = [RTree.elem "div" "c" [] none [RTree.text "hi"]]
    ∧ ([RTree.elem "div" "c" [] none [RTree.text "hi"]] : List RTree) ≠ []
    ∧ Editor.astToHtml 2 exEmptyRepeatNode ⟨Json.obj [], []⟩ none = "" :=
  ⟨rfl, by simp, by decide⟩

/-- C2 amended: when the repeat directive selects an empty item sequence,
the export renderer produces no output at all (not an error — the function
is total); the interactive renderer instead falls through to the normal
element body, so it renders the node as an ordinary (non-iterated)
element rather than nothing. -/
theorem claim_C2 :
    (∀ (fuel : Nat) (node : ASTNode) (data : ResumeData) (ri : Option Json),
        strTruthy node.«repeat» = true →
        Editor.editorRepeatData (node.«repeat».getD "") data = [] →
        Editor.astToHtml (fuel + 1) node data ri = "")
    ∧ (∀ (fuel : Nat) (node : ASTNode) (data : ResumeData) (ri : Option Json) (ix : Option Nat),
        strTruthy node.«repeat» = true →
        ASTR.astRepeatData (node.«repeat».getD "") data = some [] →
        ASTR.renderNode (fuel + 1) node data ri ix
          = ASTR.renderBody (fun c r x => ASTR.renderNode fuel c data r x) node data ri ix) := by
  constructor
  · intro fuel node data ri h1 h2
    simp [Editor.astToHtml, h1, h2]
  · intro fuel node data ri ix h1 h2
    simp [ASTR.renderNode, h1, h2]

/-- C2 witness: both branches applied at the concrete empty-repeat node. -/
theorem claim_C2_witness :
    Editor.astToHtml 2 exEmptyRepeatNode ⟨Json.obj [], []⟩ none = ""
    ∧ ASTR.renderNode 2 exEmptyRepeatNode ⟨Json.obj [], []⟩ none none
      = ASTR.renderBody (fun c r x => ASTR.renderNode 1 c ⟨Json.obj [], []⟩ r x)
          exEmptyRepeatNode ⟨Json.obj [], []⟩ none none :=
  ⟨claim_C2.1 1 exEmptyRepeatNode ⟨Json.obj [], []⟩ none (by decide) rfl,
   claim_C2.2 1 exEmptyRepeatNode ⟨Json.obj [], []⟩ none none (by decide) rfl⟩

/-- C3 counterexample: the export renderer emits `<img />` for an img node
whether or not `profile.avatar` resolves — it neither carries the resolved
source `"x.png"` nor renders nothing when the source is missing, contrary
to the claim's "in both interactive and export modes". -/
theorem claim_C3_counterexample :
    Editor.astToHtml 1 exImgNode exAvatarData none = "<img />"
    ∧ Editor.astToHtml 1 exImgNode exNoAvatarData none = "<img />"
    ∧ ("<img />" : String) ≠ ""
    ∧ ASTR.renderNode 1 exImgNode exAvatarData none none
        = [RTree.elem "img" "" [] (some "x.png") []]
    ∧ ASTR.renderNode 1 exImgNode exNoAvatarData none none = [] :=
  ⟨by decide, by decide, by decide, rfl, rfl⟩

/-- C3 amended: in the interactive renderer an `img` node resolves its
source from the interpolated content, falling back to the `background`
style value, and renders nothing when neither yields a value; other void
tags emit a childless, contentless element; the export renderer instead
emits every void element (including `img`) as a bare self-closing tag with
only class/style attributes — no source resolution and no omission. -/
theorem claim_C3 :
    (∀ (fuel : Nat) (node : ASTNode) (data : ResumeData) (ri : Option Json) (ix : Option Nat),
        strTruthy node.«repeat» = false → jsToLower node.tag = "img" →
        ASTR.resolveContent node.content data ri ix ≠ "" →
        ASTR.renderNode (fuel + 1) node data ri ix
          = [RTree.elem node.tag (node.class_name.getD "") (ASTR.convertStyles node.styles)
              (some (ASTR.resolveContent node.content data ri ix)) []])
    ∧ (∀ (fuel : Nat) (node : ASTNode) (data : ResumeData) (ri : Option Json) (ix : Option Nat)
          (b : String),
        strTruthy node.«repeat» = false → jsToLower node.tag = "img" →
        ASTR.resolveContent node.content data ri ix = "" →
        (node.styles.find? (fun p => p.1 == "background")).map (·.2) = some b → b ≠ "" →
        ASTR.renderNode (fuel + 1) node data ri ix
          = [RTree.elem node.tag (node.class_name.getD "") (ASTR.convertStyles node.styles)
              (some b) []])
    ∧ (∀ (fuel : Nat) (node : ASTNode) (data : ResumeData) (ri : Option Json) (ix : Option Nat),
        strTruthy node.«repeat» = false → jsToLower node.tag = "img" →
        ASTR.resolveContent node.content data ri ix = "" →
        (node.styles.find? (fun p => p.1 == "background")).map (·.2) = none →
        ASTR.renderNode (fuel + 1) node data ri ix = [])
    ∧ (∀ (fuel : Nat) (node : ASTNode) (data : ResumeData) (ri : Option Json) (ix : Option Nat),
        strTruthy node.«repeat» = false →
        VOID_ELEMENTS.contains (jsToLower node.tag) = true → jsToLower node.tag ≠ "img" →
        ASTR.renderNode (fuel + 1) node data ri ix
          = [RTree.elem node.tag (node.class_name.getD "") (ASTR.convertStyles node.styles)
              none []])
    ∧ (∀ (fuel : Nat) (node : ASTNode) (data : ResumeData) (ri : Option Json),
        strTruthy node.«repeat» = false →
        VOID_ELEMENTS.contains (jsToLower (if node.tag = "" then "div" else node.tag)) = true →
        Editor.astToHtml (fuel + 1) node data ri
          = "<" ++ (if node.tag = "" then "div" else node.tag)
            ++ Editor.buildAttrs node ++ " />") := by
  refine ⟨?_, ?_, ?_, ?_, ?_⟩
  · intro fuel node data ri ix h1 h2 h3
    have hv : VOID_ELEMENTS.contains (jsToLower node.tag) = true := by
      rw [h2]; decide
    have hvm : jsToLower node.tag ∈ VOID_ELEMENTS := by simpa using hv
    have himg : ("img" : String) ∈ VOID_ELEMENTS := by decide
    simp [ASTR.renderNode, ASTR.renderBody, h1, h2, h3, hvm, himg]
  · intro fuel node data ri ix b h1 h2 h3 h4 h5
    have hv : VOID_ELEMENTS.contains (jsToLower node.tag) = true := by
      rw [h2]; decide
    have hvm : jsToLower node.tag ∈ VOID_ELEMENTS := by simpa using hv
    have himg : ("img" : String) ∈ VOID_ELEMENTS := by decide
    simp [ASTR.renderNode, ASTR.renderBody, h1, h2, h3, h4, h5, hvm, himg]
  · intro fuel node data ri ix h1 h2 h3 h4
    have hv : VOID_ELEMENTS.contains (jsToLower node.tag) = true := by
      rw [h2]; decide
    have hvm : jsToLower node.tag ∈ VOID_ELEMENTS := by simpa using hv
    have himg : ("img" : String) ∈ VOID_ELEMENTS := by decide
    simp [ASTR.renderNode, ASTR.renderBody, h1, h2, h3, h4, hvm, himg]
  · intro fuel node data ri ix h1 h2 h3
    have hvm : jsToLower node.tag ∈ VOID_ELEMENTS := by simpa using h2
    simp [ASTR.renderNode, ASTR.renderBody, h1, h3, hvm]
  · intro fuel node data ri h1 h2
    have hvm : jsToLower (if node.tag = "" then "div" else node.tag) ∈ VOID_ELEMENTS := by
      simpa using h2
    simp [Editor.astToHtml, h1, hvm]

/-- C3 witness: the source-present and source-missing interactive cases
and the export case, at the spec's img scenario. -/
theorem claim_C3_witness :
    ASTR.renderNode 1 exImgNode exAvatarData none none
      = [RTree.elem exImgNode.tag (exImgNode.class_name.getD "")
          (ASTR.convertStyles exImgNode.styles)
          (some (ASTR.resolveContent exImgNode.content exAvatarData none none)) []]
    ∧ ASTR.renderNode 1 exImgNode exNoAvatarData none none = []
    ∧ Editor.astToHtml 1 exImgNode exNoAvatarData none
        = "<" ++ (if exImgNode.tag = "" then "div" else exImgNode.tag)
          ++ Editor.buildAttrs exImgNode ++ " />" :=
  ⟨claim_C3.1 0 exImgNode exAvatarData none none (by decide) (by decide) (by decide),
   claim_C3.2.2.1 0 exImgNode exNoAvatarData none none (by decide) (by decide) (by decide) rfl,
   claim_C3.2.2.2.2 0 exImgNode exNoAvatarData none (by decide) (by decide)⟩

/-- C1 counterexample: a node with the generic repeat path
`"profile.items"` over a two-element array renders two elements (visible
text `"xx"`) interactively, while the export renderer — which supports
only `sections`-based repeat sources — renders the empty string, so the
visible text of the two renders differs. -/
theorem claim_C1_counterexample :
    extractTextL (ASTR.renderNode 3 exGenericRepeatNode exGenericData none none) = "xx"
    ∧ Editor.astToHtml 3 exGenericRepeatNode exGenericData none = ""
    ∧ ("xx" : String) ≠ "" :=
  ⟨rfl, by decide, by decide⟩

/-- C1 amended: the two renderers agree on path resolution, on section
type normalization, on the `sections`-based repeat item selection, and on
interpolation outside a repeat context; but their semantics diverge inside
repeat contexts (the interactive renderer expands generic-path repeat
sources and honors extra placeholder forms that the export renderer
lacks), so the interactive text content and the export text content can
differ. -/
theorem claim_C1 :
    (∀ (obj : Json) (path : String),
        ASTR.getValueByPath obj path = Editor.getValueByPath obj path)
    ∧ (∀ (t : String), ASTR.normalizeType t = Editor.normalizeType t)
    ∧ (∀ (content : Option String) (data : ResumeData) (ix : Option Nat),
        ASTR.resolveContent content data none ix = Editor.resolveContent content data none)
    ∧ (∀ (rep : String) (data : ResumeData),
        (sectionsTypeOf rep).isSome = true ∨ rep = "sections" →
        ASTR.astRepeatData rep data
          = some ((Editor.editorRepeatData rep data).map SectionData.toJson)) := by
  refine ⟨getValueByPath_eq, normalizeType_eq, resolveContent_eq_noRepeat, ?_⟩
  intro rep data h
  rcases h with h | h
  · obtain ⟨raw, hraw⟩ := Option.isSome_iff_exists.mp h
    simp [ASTR.astRepeatData, Editor.editorRepeatData, hraw, normalizeType_eq]
  · subst h
    have hs : sectionsTypeOf "sections" = none := by decide
    simp [ASTR.astRepeatData, Editor.editorRepeatData, hs]

/-- C1 witness: the repeat-selection agreement applied at
`rep = "sections.experience"` over the two experience sections. -/
theorem claim_C1_witness :
    ASTR.astRepeatData "sections.experience" ⟨Json.obj [], exSections⟩
      = some ((Editor.editorRepeatData "sections.experience"
          ⟨Json.obj [], exSections⟩).map SectionData.toJson) :=
  claim_C1.2.2.2 "sections.experience" ⟨Json.obj [], exSections⟩ (Or.inl (by decide))
